import Mathlib

/-!
Shallow embedding of the quick-poll-api core (src/crud/poll.py, src/routers/poll.py,
src/models.py, src/schemas.py) and proofs about it.

Modelling conventions:
* The relational store is modelled per poll: a `PollState` carries the poll row
  together with its child rows (options, individual votes, edit history), since
  every core operation touches exactly one poll.  `Option PollState` is the
  store projected to one poll id (`none` = the poll does not exist / was deleted).
* SQLAlchemy sessions commit at the end of each CRUD function; every exception in
  the source is raised before `db.commit()` (the FastAPI `get_db` dependency then
  closes the session, discarding uncommitted writes).  This is modelled by the
  operations returning `Except`: on an error the caller keeps the original state.
* Random values (`uuid4`, `random.choice`, `random.choices`) and clock readings
  are passed in as explicit parameters.
* Python `str.strip()` is modelled by `pyStrip`, `str.lower()` by
  `pyLower` (characterwise `(pyLower Char)`; both agree on the ASCII texts
  handled here), Python's
  falsiness of `None`/`""` is expanded explicitly, and `str(True)`/`str(False)`
  by `pyStrBool`.
* Database integer columns are modelled as `Int` (`PollOption.votes`) so that the
  source's `max(0, votes - 1)` clamp is represented exactly.
-/

namespace QuickPoll

/-- `str(bool)` as Python renders it, used for edit-history value snapshots. -/
def pyStrBool (b : Bool) : String := if b then "True" else "False"

/-- Python `str.strip()` on the underlying character list: drop leading and
trailing whitespace (Lean's `Char.isWhitespace` covers the ASCII whitespace
relevant to this API). -/
def pyStripList (l : List Char) : List Char :=
  ((l.dropWhile Char.isWhitespace).reverse.dropWhile Char.isWhitespace).reverse

/-- Python `str.strip()`. -/
def pyStrip (s : String) : String := ⟨pyStripList s.data⟩

/-- Python `str.lower()`, characterwise on the underlying character list. -/
def pyLower (s : String) : String := ⟨s.data.map Char.toLower⟩

/-- models.py `PollOption`: id (integer primary key), text, denormalized vote
counter (timestamps and the poll foreign key are irrelevant to the claims). -/
structure PollOption where
  id : Nat
  text : String
  votes : Int
deriving DecidableEq, Repr

/-- models.py `IndividualVote` restricted to one poll: the option referenced and
the voter token (the row id and timestamp are irrelevant to the claims). -/
structure IndividualVote where
  option_id : Nat
  voter_token : String
deriving DecidableEq, Repr

/-- models.py `PollEditHistory` row (without row id / timestamp, which are
assigned by the store). -/
structure PollEditHistory where
  field_changed : String
  option_id_changed : Option Nat
  old_value : Option String
  new_value : Option String
  change_description : Option String
deriving DecidableEq, Repr

/-- One poll together with its owned child rows.  `updated_at_tick` is an
abstract timestamp (the source's `updated_at`); `next_option_id` models the
option-id sequence of the store (primary keys are assigned increasingly). -/
structure PollState where
  question : String
  creator_display_name : Option String
  allow_multiple_selections : Bool
  voting_security_level : String
  is_public : Bool
  modification_code : String
  options : List PollOption
  votes : List IndividualVote
  edit_history : List PollEditHistory
  updated_at_tick : Nat
  next_option_id : Nat
deriving DecidableEq, Repr

/-- schemas.py `PollCreate` (option rows reduced to their texts). -/
structure PollCreate where
  question : String
  creator_display_name : Option String
  allow_multiple_selections : Bool
  voting_security_level : String
  is_public : Bool
  options : List String
deriving DecidableEq, Repr

/-- schemas.py `PollOptionTextUpdate`. -/
structure PollOptionTextUpdate where
  id : Nat
  text : String
deriving DecidableEq, Repr

/-- schemas.py `PollUpdate`.  The source treats `None` and the empty list the
same for the three option lists (`if poll_update_data.option_ids_to_remove:`),
so they are modelled as plain lists. -/
structure PollUpdate where
  question : Option String
  is_public : Option Bool
  allow_multiple_selections : Option Bool
  options_to_add : List String
  options_to_update : List PollOptionTextUpdate
  option_ids_to_remove : List Nat
  modification_code : String
deriving DecidableEq, Repr

/-- Error kinds raised by crud/poll.py `update_poll` (and poll deletion). -/
inductive UpdateError where
  | pollNotFound
  | invalidModificationCode
  | invalidRequest (option_id : Nat)
  | updateNotAllowed (option_id : Nat)
  | duplicateOptionText (text : String)
deriving DecidableEq, Repr

/-- Error kinds raised by crud/poll.py `crud_vote_on_poll`. -/
inductive VoteError where
  | pollNotFound
  | pollOptionsMissing
  | invalidOptionId (option_id : Nat)
  | multipleSelectionsNotAllowed
  | noOptionsSelected
  | dbCommitError
deriving DecidableEq, Repr

/-! ## Creator display name generation (crud/poll.py lines 26-42) -/

/-- Word list `ADJECTIVES` from crud/poll.py. -/
def ADJECTIVES : List String :=
  ["Quick", "Clever", "Wise", "Happy", "Sunny", "Brave", "Calm", "Eager",
   "Gentle", "Jolly", "Keen", "Lively", "Merry", "Nice", "Proud", "Silly",
   "Witty", "Zany", "Sparkling", "Vivid", "Radiant", "Playful", "Dynamic"]

/-- Word list `NOUNS` from crud/poll.py. -/
def NOUNS : List String :=
  ["Fox", "Owl", "Panda", "Tiger", "Lion", "Bear", "Wolf", "Eagle", "Hawk",
   "Robin", "Sparrow", "Badger", "Beaver", "Otter", "Quokka", "Koala",
   "Lemur", "Meerkat", "Penguin", "Dolphin", "Whale", "Unicorn", "Dragon"]

/-- crud/poll.py `generate_random_display_name`: `random.choice` on each list is
modelled by an arbitrary index reduced modulo the list length. -/
def generate_random_display_name (ai ni : Nat) : String :=
  (ADJECTIVES.getD (ai % ADJECTIVES.length) "") ++ " " ++ (NOUNS.getD (ni % NOUNS.length) "")

/-- schemas.py `PollBase.sanitize_creator_display_name`: strip a supplied name,
pass `None` through. -/
def sanitize_creator_display_name (value : Option String) : Option String :=
  value.map (fun s => pyStrip s)

/-- The creator-name defaulting logic of crud/poll.py `create_poll` (lines
56-59): `if not creator_name or creator_name.strip() == ""` generate a random
name, otherwise keep the supplied one. -/
def create_poll_creator_name (supplied : Option String) (ai ni : Nat) : String :=
  match supplied with
  | none => generate_random_display_name ai ni
  | some s => if s = "" ∨ pyStrip s = "" then generate_random_display_name ai ni else s

/-! ## Poll creation (crud/poll.py `create_poll`, schemas.py `PollCreate`) -/

/-- The option rows inserted by `create_poll`: one row per option text, vote
counter defaulting to 0 (models.py `votes = Column(..., default=0)`), with
primary keys assigned in insertion order starting from the store's sequence. -/
def mkPollOptions (base : Nat) (texts : List String) : List PollOption :=
  texts.enum.map (fun p => { id := base + p.1, text := p.2, votes := 0 })

/-- Case-insensitive pairwise distinctness of option texts, as checked by
schemas.py `check_unique_option_texts`. -/
def lowerTextsDistinct (l : List String) : Bool :=
  decide ((l.map (fun t => (pyLower t))).Nodup)

/-- Request validation performed by schemas.py `PollCreate` / `PollBase` /
`PollOptionCreate` before crud `create_poll` runs: question and option texts are
stripped and must be non-empty, 2-20 options, option texts pairwise distinct
case-insensitively, voting security level drawn from the allowed set, creator
display name stripped.  `none` models a rejected (422) request. -/
def validatePollCreate (d : PollCreate) : Option PollCreate :=
  if pyStrip d.question = "" then (none : Option PollCreate)
  else if (d.options.map (fun t => pyStrip t)).any (fun t => t = "") then none
  else if d.options.length < 2 ∨ 20 < d.options.length then none
  else if ¬ lowerTextsDistinct (d.options.map (fun t => pyStrip t)) then none
  else if d.voting_security_level ∉ ["none", "cookie_basic", "cookie_strict", "ip_address"] then none
  else some { d with
    question := pyStrip d.question
    options := d.options.map (fun t => pyStrip t)
    creator_display_name := sanitize_creator_display_name d.creator_display_name }

/-- crud/poll.py `create_poll`, success path (both commits succeed): the poll
row plus its option rows.  `modCode` stands for the generated modification
code, `ai`/`ni` for the random name choices. -/
def create_poll (d : PollCreate) (modCode : String) (ai ni : Nat) : PollState :=
  { question := d.question
    creator_display_name := some (create_poll_creator_name d.creator_display_name ai ni)
    allow_multiple_selections := d.allow_multiple_selections
    voting_security_level := d.voting_security_level
    is_public := d.is_public
    modification_code := modCode
    options := mkPollOptions 0 d.options
    votes := []
    edit_history := []
    updated_at_tick := 0
    next_option_id := d.options.length }

/-- crud/poll.py `create_poll` with its two separate commits made explicit
(lines 76-108): the poll row is committed first; the option rows are committed
second.  `pollCommitOk` / `optionsCommitOk` are oracles for the two
`db.commit()` calls; on a failure the source rolls back only the uncommitted
writes and raises.  Returns the resulting store state for this poll and the
error code raised, if any. -/
def create_poll_commits (prev : Option PollState) (d : PollCreate) (modCode : String)
    (ai ni : Nat) (pollCommitOk optionsCommitOk : Bool) :
    Option PollState × Option String :=
  if ¬ pollCommitOk then
    (prev, some "DB_CREATE_POLL_ERROR")
  else
    let pollRow : PollState :=
      { create_poll d modCode ai ni with options := [] }
    if ¬ optionsCommitOk then
      (some pollRow, some "DB_CREATE_OPTIONS_ERROR")
    else
      (some (create_poll d modCode ai ni), none)

/-! ## Vote casting (crud/poll.py `crud_vote_on_poll`) -/

/-- Decrement an option's counter, clamped at zero: the source's
`option_to_decrement.votes = max(0, option_to_decrement.votes - 1)`; the lookup
`db.get(PollOption, prev_vote.option_id)` silently skips absent options. -/
def decrementFor (opts : List PollOption) (oid : Nat) : List PollOption :=
  opts.map (fun o => if o.id = oid then { o with votes := max 0 (o.votes - 1) } else o)

/-- The loop decrementing once per removed previous ballot. -/
def applyDecrements (opts : List PollOption) (prev : List IndividualVote) : List PollOption :=
  prev.foldl (fun os b => decrementFor os b.option_id) opts

/-- Increment an option's counter (`option_to_increment.votes += 1`); absent
options are skipped (`if option_to_increment:`). -/
def incrementFor (opts : List PollOption) (oid : Nat) : List PollOption :=
  opts.map (fun o => if o.id = oid then { o with votes := o.votes + 1 } else o)

/-- The loop incrementing once per selected option. -/
def applyIncrements (opts : List PollOption) (selected : List Nat) : List PollOption :=
  selected.foldl incrementFor opts

/-- The column pair covered by the `uq_poll_option_voter_token` unique
constraint of models.py `IndividualVote` (the poll id is fixed here). -/
def voteKey (v : IndividualVote) : Nat × String := (v.option_id, v.voter_token)

/-- The previously cast ballots located for revision (crud/poll.py lines
378-383): all of this poll's rows carrying the supplied token; none when no
token was supplied. -/
def prevVotesFor (p : PollState) (existing_voter_token : Option String) :
    List IndividualVote :=
  match existing_voter_token with
  | some t => p.votes.filter (fun v => v.voter_token = t)
  | none => []

/-- The ballot rows that survive the revision deletions. -/
def survivingVotesFor (p : PollState) (existing_voter_token : Option String) :
    List IndividualVote :=
  match existing_voter_token with
  | some t => p.votes.filter (fun v => v.voter_token ≠ t)
  | none => p.votes

/-- crud/poll.py `crud_vote_on_poll` for an existing poll.  `selected_options`
is the request body, `existing_voter_token` the token handed in by the caller,
`minted_token` the value `generate_voter_token()` would produce.  The final
`db.commit()` fails (and rolls everything back) exactly when the inserted
ballot rows violate the `uq_poll_option_voter_token` unique constraint. -/
def crud_vote_on_poll (p : PollState) (selected_options : List Nat)
    (existing_voter_token : Option String) (minted_token : String) :
    Except VoteError (PollState × Option String) :=
  if p.options.isEmpty then .error .pollOptionsMissing
  else
    match selected_options.find? (fun oid => ¬ p.options.any (fun o => o.id = oid)) with
    | some bad => .error (.invalidOptionId bad)
    | none =>
      if ¬ p.allow_multiple_selections ∧ 1 < selected_options.length then
        .error .multipleSelectionsNotAllowed
      else if selected_options.isEmpty then .error .noOptionsSelected
      else
        if ((selected_options.map (fun oid =>
              ({ option_id := oid, voter_token := existing_voter_token.getD minted_token }
                : IndividualVote))).map voteKey).Nodup ∧
            ∀ v ∈ selected_options.map (fun oid =>
              ({ option_id := oid, voter_token := existing_voter_token.getD minted_token }
                : IndividualVote)),
              voteKey v ∉ (survivingVotesFor p existing_voter_token).map voteKey then
          .ok ({ p with
                  options := applyIncrements
                    (applyDecrements p.options (prevVotesFor p existing_voter_token))
                    selected_options
                  votes := survivingVotesFor p existing_voter_token ++
                    selected_options.map (fun oid =>
                      { option_id := oid, voter_token := existing_voter_token.getD minted_token }) },
               match existing_voter_token with
               | some _ => none
               | none => some minted_token)
        else .error .dbCommitError

/-! ## Voter identity policy (routers/poll.py `vote_on_poll_endpoint`, 198-232) -/

/-- routers/poll.py lines 204-208: for security level `"none"` the cookie token
is discarded (`token_to_pass_to_crud = None`), otherwise passed through. -/
def resolveVoterToken (level : String) (cookieToken : Option String) : Option String :=
  if level = "none" then none else cookieToken

/-- The vote endpoint on an existing poll: resolve the token per the poll's
security level, then invoke the ballot engine. -/
def vote_on_poll_endpoint (p : PollState) (selected_options : List Nat)
    (cookieToken : Option String) (minted_token : String) :
    Except VoteError (PollState × Option String) :=
  crud_vote_on_poll p selected_options
    (resolveVoterToken p.voting_security_level cookieToken) minted_token

/-! ## Poll update (crud/poll.py `update_poll`, lines 140-302) -/

/-- The scalar-field block of `update_poll` (lines 185-207): question,
`is_public` and `allow_multiple_selections` are each applied and logged only if
supplied and different from the stored value.  Returns the updated poll row and
the history entries recorded so far, in recording order. -/
def applyScalarUpdates (p : PollState) (u : PollUpdate) : PollState × List PollEditHistory :=
  let (p1, h1) :=
    match u.question with
    | some q =>
      if p.question ≠ q then
        ({ p with question := q },
         [({ field_changed := "question", option_id_changed := none,
             old_value := some p.question, new_value := some q,
             change_description := none } : PollEditHistory)])
      else (p, [])
    | none => (p, [])
  let (p2, h2) :=
    match u.is_public with
    | some b =>
      if p1.is_public ≠ b then
        ({ p1 with is_public := b },
         [({ field_changed := "is_public", option_id_changed := none,
             old_value := some (pyStrBool p1.is_public), new_value := some (pyStrBool b),
             change_description := none } : PollEditHistory)])
      else (p1, [])
    | none => (p1, [])
  let (p3, h3) :=
    match u.allow_multiple_selections with
    | some b =>
      if p2.allow_multiple_selections ≠ b then
        ({ p2 with allow_multiple_selections := b },
         [({ field_changed := "allow_multiple_selections", option_id_changed := none,
             old_value := some (pyStrBool p2.allow_multiple_selections),
             new_value := some (pyStrBool b),
             change_description := none } : PollEditHistory)])
      else (p2, [])
    | none => (p2, [])
  (p3, h1 ++ h2 ++ h3)

/-- Working state of the option-mutation loops of `update_poll`: the current
option rows, the `current_option_texts_lower` set (a list with set semantics:
only membership is ever queried), the history entries recorded so far, and the
store's option-id sequence (`db.flush()` assigns the next id). -/
structure UpdCtx where
  options : List PollOption
  texts : List String
  history : List PollEditHistory
  next_option_id : Nat
deriving DecidableEq, Repr

/-- Python `set.add`. -/
def setAdd (s : List String) (x : String) : List String :=
  if x ∈ s then s else s ++ [x]

/-- Python `set.discard`. -/
def setDiscard (s : List String) (x : String) : List String :=
  s.filter (fun y => y ≠ x)

/-- The set literal `{opt.text.lower() for opt in db_poll.options}`. -/
def setOfLowerTexts (opts : List PollOption) : List String :=
  opts.foldl (fun acc o => setAdd acc (pyLower o.text)) []

/-- One iteration of the removal loop (lines 214-230): the option id must exist
on the poll, the option must have no live ballots (its loaded
`individual_votes_on_option` list), then a history entry is recorded and the row
deleted.  Ids are primary keys, so deleting the found row is modelled by
filtering the id out. -/
def removeOne (votes : List IndividualVote) (ctx : UpdCtx) (rid : Nat) :
    Except UpdateError UpdCtx :=
  match ctx.options.find? (fun o => o.id = rid) with
  | none => .error (.invalidRequest rid)
  | some o =>
    if 0 < (votes.filter (fun b => b.option_id = rid)).length then
      .error (.updateNotAllowed rid)
    else
      .ok { ctx with
        history := ctx.history ++
          [{ field_changed := "option_removed", option_id_changed := some rid,
             old_value := some o.text, new_value := none,
             change_description := some ("Option " ++ o.text ++ " (ID: " ++ toString rid ++ ") removed.") }]
        texts := setDiscard ctx.texts (pyLower o.text)
        options := ctx.options.filter (fun o2 => o2.id ≠ rid) }

/-- The removal loop over `option_ids_to_remove`. -/
def processRemovals (votes : List IndividualVote) (ctx : UpdCtx) (ids : List Nat) :
    Except UpdateError UpdCtx :=
  match ids with
  | [] => .ok ctx
  | rid :: rest => do processRemovals votes (← removeOne votes ctx rid) rest

/-- One iteration of the rename loop (lines 233-254): the option id must exist
among the post-removal options; if the new text differs (case-sensitively) from
the current one, it must not collide case-insensitively with any other
surviving text (the option's own text is excluded from the comparison set), and
the rename is applied and logged; identical text is a silent no-op. -/
def renameOne (ctx : UpdCtx) (r : PollOptionTextUpdate) : Except UpdateError UpdCtx :=
  match ctx.options.find? (fun o => o.id = r.id) with
  | none => .error (.invalidRequest r.id)
  | some o =>
    if o.text ≠ r.text then
      if (pyLower r.text) ∈ setDiscard ctx.texts (pyLower o.text) then
        .error (.duplicateOptionText r.text)
      else
        .ok { ctx with
          options := ctx.options.map (fun o2 => if o2.id = r.id then { o2 with text := r.text } else o2)
          history := ctx.history ++
            [{ field_changed := "option_text_updated", option_id_changed := some r.id,
               old_value := some o.text, new_value := some r.text,
               change_description := none }]
          texts := setAdd (setDiscard ctx.texts (pyLower o.text)) (pyLower r.text) }
    else .ok ctx

/-- The rename loop over `options_to_update`. -/
def processRenames (ctx : UpdCtx) (rs : List PollOptionTextUpdate) :
    Except UpdateError UpdCtx :=
  match rs with
  | [] => .ok ctx
  | r :: rest => do processRenames (← renameOne ctx r) rest

/-- One iteration of the addition loop (lines 257-276): the new text must not
collide case-insensitively with any surviving or already-added text; the new
row starts with zero votes and gets the next sequence id (`db.flush()`). -/
def addOne (ctx : UpdCtx) (newText : String) : Except UpdateError UpdCtx :=
  if (pyLower newText) ∈ ctx.texts then .error (.duplicateOptionText newText)
  else
    let nid := ctx.next_option_id
    .ok { options := ctx.options ++ [{ id := nid, text := newText, votes := 0 }]
          texts := setAdd ctx.texts (pyLower newText)
          history := ctx.history ++
            [{ field_changed := "option_added", option_id_changed := some nid,
               old_value := none, new_value := some newText,
               change_description := some ("Option " ++ newText ++ " added.") }]
          next_option_id := nid + 1 }

/-- The addition loop over `options_to_add`. -/
def processAdds (ctx : UpdCtx) (ts : List String) : Except UpdateError UpdCtx :=
  match ts with
  | [] => .ok ctx
  | t :: rest => do processAdds (← addOne ctx t) rest

/-- crud/poll.py `update_poll` on an existing poll.  The source's control flow,
in order: modification-code check; scalar field updates (lines 185-207); option
removals (213-230); option text updates (233-254); option additions (257-276);
finalization (279-302), which sets `updated_at` and persists the recorded
history entries only when at least one change was made
(`changes_made_to_poll_object` is set at exactly the sites that record a
history entry, so the flag is equivalent to the entry list being non-empty).
All raises occur before `db.commit()`, so an error leaves the store untouched. -/
def update_poll (p : PollState) (u : PollUpdate) (newTick : Nat) :
    Except UpdateError PollState :=
  if p.modification_code ≠ u.modification_code then .error .invalidModificationCode
  else
    let (p1, hScalar) := applyScalarUpdates p u
    let ctx0 : UpdCtx :=
      { options := p1.options, texts := setOfLowerTexts p1.options,
        history := hScalar, next_option_id := p1.next_option_id }
    do
      let ctx1 ← processRemovals p1.votes ctx0 u.option_ids_to_remove
      let ctx2 ← processRenames ctx1 u.options_to_update
      let ctx3 ← processAdds ctx2 u.options_to_add
      .ok { p1 with
        options := ctx3.options
        next_option_id := ctx3.next_option_id
        edit_history := p1.edit_history ++ ctx3.history
        updated_at_tick := if ctx3.history.isEmpty then p1.updated_at_tick else newTick }

/-! ## Poll deletion (routers/poll.py `delete_poll_endpoint`, lines 316-346) -/

/-- Deletion of an existing poll: capability check, then the votes, options and
the poll row (cascading to history) are deleted in one transaction. -/
def delete_poll (p : PollState) (code : String) : Except UpdateError Unit :=
  if p.modification_code ≠ code then .error .invalidModificationCode else .ok ()

/-! ## The operations as a state machine over one poll id -/

/-- One externally triggered operation on the poll id under consideration, with
all environment-chosen values (generated code, random name indices, minted
voter token, clock tick) as explicit data. -/
inductive PollOp where
  | createOp (d : PollCreate) (modCode : String) (ai ni : Nat)
  | voteOp (selected : List Nat) (cookieToken : Option String) (minted_token : String)
  | updateOp (u : PollUpdate) (newTick : Nat)
  | deleteOp (code : String)

/-- Apply one completed operation to the store (projected to this poll id).
Failed operations roll back and leave the store unchanged; `createOp` on an
already existing poll creates a different poll id and leaves this one alone. -/
def applyOp (s : Option PollState) (op : PollOp) : Option PollState :=
  match op, s with
  | .createOp d code ai ni, none =>
    match validatePollCreate d with
    | some d2 => some (create_poll d2 code ai ni)
    | none => none
  | .createOp _ _ _ _, some p => some p
  | .voteOp _ _ _, none => none
  | .voteOp sel ck mt, some p =>
    match vote_on_poll_endpoint p sel ck mt with
    | .ok (p2, _) => some p2
    | .error _ => some p
  | .updateOp _ _, none => none
  | .updateOp u tick, some p =>
    match update_poll p u tick with
    | .ok p2 => some p2
    | .error _ => some p
  | .deleteOp _, none => none
  | .deleteOp code, some p =>
    match delete_poll p code with
    | .ok _ => none
    | .error _ => some p

/-- The store state for this poll id after a sequence of completed operations,
starting from a store in which the poll does not yet exist. -/
def runOps (ops : List PollOp) : Option PollState :=
  ops.foldl applyOp none

/-! ## Derived observations -/

/-- The stored counter of option `i` (0 if the option row is absent). -/
def getVotes (opts : List PollOption) (i : Nat) : Int :=
  match opts.find? (fun o => o.id = i) with
  | some o => o.votes
  | none => 0

/-- The number of live `IndividualVote` rows referencing option `i`. -/
def countBallots (votes : List IndividualVote) (i : Nat) : Nat :=
  votes.countP (fun b => b.option_id = i)

/-! ## Helper lemmas: stripping -/

theorem dropWhile_head?_false {p : Char → Bool} {l : List Char} {a : Char}
    (h : (l.dropWhile p).head? = some a) : p a = false := by
  induction l with
  | nil => simp [List.dropWhile] at h
  | cons b t ih =>
    rw [List.dropWhile_cons] at h
    split at h
    · exact ih h
    · next hb =>
      simp only [List.head?_cons, Option.some.injEq] at h
      subst h
      simpa using hb

theorem dropWhile_eq_self_of_head? {p : Char → Bool} {l : List Char}
    (h : ∀ a, l.head? = some a → p a = false) : l.dropWhile p = l := by
  cases l with
  | nil => rfl
  | cons a t =>
    rw [List.dropWhile_cons]
    simp [h a rfl]

theorem getLast?_dropWhile (p : Char → Bool) (l : List Char)
    (h : l.dropWhile p ≠ []) : (l.dropWhile p).getLast? = l.getLast? := by
  obtain ⟨pre, hpre⟩ : l.dropWhile p <:+ l := List.dropWhile_suffix p
  conv_rhs => rw [← hpre]
  rw [List.getLast?_append_of_ne_nil _ h]

theorem pyStripList_idem (l : List Char) : pyStripList (pyStripList l) = pyStripList l := by
  unfold pyStripList
  set A := l.dropWhile Char.isWhitespace with hA
  set C := A.reverse.dropWhile Char.isWhitespace with hC
  by_cases hCnil : C = []
  · simp [hCnil]
  · have hArev : A.reverse ≠ [] := by
      intro hcon
      apply hCnil
      rw [hC, hcon]
      rfl
    have hstep1 : C.reverse.dropWhile Char.isWhitespace = C.reverse := by
      apply dropWhile_eq_self_of_head?
      intro a ha
      rw [List.head?_reverse] at ha
      rw [hC, getLast?_dropWhile _ _ hCnil, List.getLast?_reverse] at ha
      exact dropWhile_head?_false (hA ▸ ha)
    have hstep2 : C.dropWhile Char.isWhitespace = C := by
      apply dropWhile_eq_self_of_head?
      intro a ha
      exact dropWhile_head?_false (hC ▸ ha)
    rw [hstep1, List.reverse_reverse, hstep2]

theorem pyStrip_idem (s : String) : pyStrip (pyStrip s) = pyStrip s := by
  unfold pyStrip
  exact congrArg String.mk (pyStripList_idem s.data)

/-! ## Helper lemmas: option lookup and counters -/

theorem find?_map_id_preserving (f : PollOption → PollOption)
    (hf : ∀ o, (f o).id = o.id) (opts : List PollOption) (i : Nat) :
    (opts.map f).find? (fun o => o.id = i) = (opts.find? (fun o => o.id = i)).map f := by
  rw [List.find?_map]
  have hp : ((fun o : PollOption => decide (o.id = i)) ∘ f)
      = (fun o : PollOption => decide (o.id = i)) := by
    funext o
    simp [Function.comp, hf]
  rw [hp]

theorem decrementFor_id_preserving (j : Nat) :
    ∀ o : PollOption, ((fun o => if o.id = j then { o with votes := max 0 (o.votes - 1) } else o) o).id = o.id := by
  intro o
  by_cases h : o.id = j <;> simp [h]

theorem incrementFor_id_preserving (j : Nat) :
    ∀ o : PollOption, ((fun o => if o.id = j then { o with votes := o.votes + 1 } else o) o).id = o.id := by
  intro o
  by_cases h : o.id = j <;> simp [h]

theorem getVotes_decrementFor (opts : List PollOption) (j i : Nat) :
    getVotes (decrementFor opts j) i =
      if j = i then max 0 (getVotes opts i - 1) else getVotes opts i := by
  unfold getVotes decrementFor
  rw [find?_map_id_preserving _ (decrementFor_id_preserving j)]
  cases hfind : opts.find? (fun o => o.id = i) with
  | none =>
    by_cases hji : j = i <;> simp [hji]
  | some o =>
    have hoi : o.id = i := by
      have := List.find?_some hfind
      simpa using this
    by_cases hji : j = i
    · subst hji
      simp [hoi]
    · have hne : ¬ o.id = j := fun hcon => hji (hcon.symm.trans hoi)
      simp [hne, hji]

theorem getVotes_incrementFor_ne (opts : List PollOption) (j i : Nat) (h : j ≠ i) :
    getVotes (incrementFor opts j) i = getVotes opts i := by
  unfold getVotes incrementFor
  rw [find?_map_id_preserving _ (incrementFor_id_preserving j)]
  cases hfind : opts.find? (fun o => o.id = i) with
  | none => simp
  | some o =>
    have hoi : o.id = i := by
      have := List.find?_some hfind
      simpa using this
    have hne : ¬ o.id = j := fun hcon => h (hcon.symm.trans hoi)
    simp [hne]

theorem getVotes_incrementFor_self (opts : List PollOption) (i : Nat)
    (h : (opts.find? (fun o => o.id = i)).isSome) :
    getVotes (incrementFor opts i) i = getVotes opts i + 1 := by
  unfold getVotes incrementFor
  rw [find?_map_id_preserving _ (incrementFor_id_preserving i)]
  cases hfind : opts.find? (fun o => o.id = i) with
  | none => rw [hfind] at h; simp at h
  | some o =>
    have hoi : o.id = i := by
      have := List.find?_some hfind
      simpa using this
    simp [hoi]

theorem find?_isSome_incrementFor (opts : List PollOption) (k j : Nat) :
    ((incrementFor opts k).find? (fun o => o.id = j)).isSome
      = (opts.find? (fun o => o.id = j)).isSome := by
  unfold incrementFor
  rw [find?_map_id_preserving _ (incrementFor_id_preserving k)]
  cases opts.find? (fun o => o.id = j) <;> rfl

theorem applyDecrements_cons (opts : List PollOption) (b : IndividualVote)
    (rest : List IndividualVote) :
    applyDecrements opts (b :: rest) = applyDecrements (decrementFor opts b.option_id) rest := rfl

theorem applyIncrements_cons (opts : List PollOption) (j : Nat) (rest : List Nat) :
    applyIncrements opts (j :: rest) = applyIncrements (incrementFor opts j) rest := rfl

theorem getVotes_applyDecrements (prev : List IndividualVote) (opts : List PollOption) (i : Nat)
    (h : (countBallots prev i : Int) ≤ getVotes opts i) :
    getVotes (applyDecrements opts prev) i = getVotes opts i - countBallots prev i := by
  induction prev generalizing opts with
  | nil => simp [applyDecrements, countBallots]
  | cons b rest ih =>
    rw [applyDecrements_cons]
    rw [countBallots, List.countP_cons] at h ⊢
    by_cases hb : b.option_id = i
    · have hcnt : (countBallots rest i : Int) + 1 ≤ getVotes opts i := by
        simpa [countBallots, hb] using h
      have hpos : (1 : Int) ≤ getVotes opts i := by
        have : (0 : Int) ≤ (countBallots rest i : Int) := Int.ofNat_nonneg _
        omega
      have hdec : getVotes (decrementFor opts b.option_id) i = getVotes opts i - 1 := by
        rw [getVotes_decrementFor]
        rw [if_pos hb]
        omega
      rw [ih _ (by rw [hdec]; omega), hdec]
      simp [countBallots, hb]
      omega
    · have hdec : getVotes (decrementFor opts b.option_id) i = getVotes opts i := by
        rw [getVotes_decrementFor]
        simp [hb]
      rw [ih _ (by rw [hdec]; simpa [countBallots, hb] using h), hdec]
      simp [countBallots, hb]

theorem getVotes_applyIncrements (sel : List Nat) (opts : List PollOption) (i : Nat)
    (h : ∀ j ∈ sel, (opts.find? (fun o => o.id = j)).isSome) :
    getVotes (applyIncrements opts sel) i =
      getVotes opts i + (sel.countP (fun j => j = i) : Int) := by
  induction sel generalizing opts with
  | nil => simp [applyIncrements]
  | cons j rest ih =>
    rw [applyIncrements_cons, List.countP_cons]
    have hrest : ∀ k ∈ rest, ((incrementFor opts j).find? (fun o => o.id = k)).isSome := by
      intro k hk
      rw [find?_isSome_incrementFor]
      exact h k (List.mem_cons_of_mem _ hk)
    rw [ih _ hrest]
    by_cases hji : j = i
    · subst hji
      rw [getVotes_incrementFor_self _ _ (h j (List.mem_cons_self _ _))]
      simp
      omega
    · rw [getVotes_incrementFor_ne _ _ _ hji]
      simp [hji]

/-! ## Helper lemmas: id and text lists through the counter maps -/

theorem map_field_map_of_preserving {α : Type} (f : PollOption → PollOption)
    (g : PollOption → α) (hf : ∀ o, g (f o) = g o) (opts : List PollOption) :
    (opts.map f).map g = opts.map g := by
  rw [List.map_map]
  exact List.map_congr_left (fun o _ => hf o)

theorem ids_decrementFor (opts : List PollOption) (j : Nat) :
    (decrementFor opts j).map (fun o => o.id) = opts.map (fun o => o.id) :=
  map_field_map_of_preserving _ _ (decrementFor_id_preserving j) opts

theorem ids_applyDecrements (prev : List IndividualVote) (opts : List PollOption) :
    (applyDecrements opts prev).map (fun o => o.id) = opts.map (fun o => o.id) := by
  induction prev generalizing opts with
  | nil => rfl
  | cons b rest ih => rw [applyDecrements_cons, ih, ids_decrementFor]

theorem ids_incrementFor (opts : List PollOption) (j : Nat) :
    (incrementFor opts j).map (fun o => o.id) = opts.map (fun o => o.id) :=
  map_field_map_of_preserving _ _ (incrementFor_id_preserving j) opts

theorem ids_applyIncrements (sel : List Nat) (opts : List PollOption) :
    (applyIncrements opts sel).map (fun o => o.id) = opts.map (fun o => o.id) := by
  induction sel generalizing opts with
  | nil => rfl
  | cons j rest ih => rw [applyIncrements_cons, ih, ids_incrementFor]

theorem texts_decrementFor (opts : List PollOption) (j : Nat) :
    (decrementFor opts j).map (fun o => o.text) = opts.map (fun o => o.text) := by
  apply map_field_map_of_preserving
  intro o
  by_cases h : o.id = j <;> simp [h]

theorem texts_applyDecrements (prev : List IndividualVote) (opts : List PollOption) :
    (applyDecrements opts prev).map (fun o => o.text) = opts.map (fun o => o.text) := by
  induction prev generalizing opts with
  | nil => rfl
  | cons b rest ih => rw [applyDecrements_cons, ih, texts_decrementFor]

theorem texts_incrementFor (opts : List PollOption) (j : Nat) :
    (incrementFor opts j).map (fun o => o.text) = opts.map (fun o => o.text) := by
  apply map_field_map_of_preserving
  intro o
  by_cases h : o.id = j <;> simp [h]

theorem texts_applyIncrements (sel : List Nat) (opts : List PollOption) :
    (applyIncrements opts sel).map (fun o => o.text) = opts.map (fun o => o.text) := by
  induction sel generalizing opts with
  | nil => rfl
  | cons j rest ih => rw [applyIncrements_cons, ih, texts_incrementFor]

/-! ## Helper lemmas: ballot counting -/

theorem countBallots_append (l1 l2 : List IndividualVote) (i : Nat) :
    countBallots (l1 ++ l2) i = countBallots l1 i + countBallots l2 i := by
  simp [countBallots, List.countP_append]

theorem countBallots_filter_token (votes : List IndividualVote) (t : String) (i : Nat) :
    countBallots votes i =
      countBallots (votes.filter (fun v => v.voter_token = t)) i +
      countBallots (votes.filter (fun v => v.voter_token ≠ t)) i := by
  unfold countBallots
  simp only [decide_not]
  induction votes with
  | nil => simp
  | cons v rest ih =>
    simp only [List.filter_cons, List.countP_cons]
    by_cases ht : v.voter_token = t <;> by_cases hi : v.option_id = i <;>
      simp [ht, hi, List.countP_cons] <;> omega

theorem countBallots_map_mk (sel : List Nat) (t : String) (i : Nat) :
    countBallots (sel.map (fun oid => { option_id := oid, voter_token := t })) i
      = sel.countP (fun j => j = i) := by
  unfold countBallots
  rw [List.countP_map]
  rfl

theorem countBallots_filter_le (votes : List IndividualVote) (q : IndividualVote → Bool) (i : Nat) :
    countBallots (votes.filter q) i ≤ countBallots votes i :=
  (List.filter_sublist votes).countP_le _

/-! ## Helper lemmas: primary-key lookup under distinct ids -/

theorem find?_eq_of_mem_nodup {opts : List PollOption} {o : PollOption}
    (hnd : (opts.map (fun x => x.id)).Nodup) (ho : o ∈ opts) :
    opts.find? (fun x => x.id = o.id) = some o := by
  induction opts with
  | nil => cases ho
  | cons a rest ih =>
    rw [List.map_cons, List.nodup_cons] at hnd
    rcases List.mem_cons.mp ho with rfl | hmem
    · rw [List.find?_cons_of_pos]
      simp
    · by_cases hai : a.id = o.id
      · exact absurd (by rw [hai]; exact List.mem_map_of_mem _ hmem) hnd.1
      · rw [List.find?_cons_of_neg _ (by simpa using hai)]
        exact ih hnd.2 hmem

theorem find?_filter_id_ne (opts : List PollOption) (r i : Nat) (h : i ≠ r) :
    (opts.filter (fun o => o.id ≠ r)).find? (fun o => o.id = i)
      = opts.find? (fun o => o.id = i) := by
  induction opts with
  | nil => rfl
  | cons a rest ih =>
    rw [List.filter_cons]
    by_cases har : a.id = r
    · have hai : ¬ a.id = i := fun hcon => h (hcon.symm.trans har)
      rw [if_neg (by simpa using har), ih,
        List.find?_cons_of_neg _ (by simpa using hai)]
    · rw [if_pos (by simpa using har)]
      by_cases hai : a.id = i
      · rw [List.find?_cons_of_pos _ (by simpa using hai),
          List.find?_cons_of_pos _ (by simpa using hai)]
      · rw [List.find?_cons_of_neg _ (by simpa using hai), ih,
          List.find?_cons_of_neg _ (by simpa using hai)]

theorem find?_filter_id_self (opts : List PollOption) (r : Nat) :
    (opts.filter (fun o => o.id ≠ r)).find? (fun o => o.id = r) = none := by
  rw [List.find?_eq_none]
  intro x hx
  rw [List.mem_filter] at hx
  simpa using hx.2

/-! ## Helper lemmas: the lowered-texts set -/

theorem mem_setAdd {s : List String} {x y : String} : y ∈ setAdd s x ↔ y ∈ s ∨ y = x := by
  unfold setAdd
  split
  · next h =>
    constructor
    · exact Or.inl
    · rintro (h2 | rfl)
      · exact h2
      · exact h
  · simp [List.mem_append]

theorem mem_setDiscard {s : List String} {x y : String} :
    y ∈ setDiscard s x ↔ y ∈ s ∧ y ≠ x := by
  simp [setDiscard, List.mem_filter]

theorem mem_foldl_setAdd (l : List String) (acc : List String) (y : String) :
    y ∈ l.foldl setAdd acc ↔ y ∈ acc ∨ y ∈ l := by
  induction l generalizing acc with
  | nil => simp
  | cons a rest ih =>
    rw [List.foldl_cons, ih, mem_setAdd, List.mem_cons]
    tauto

theorem mem_setOfLowerTexts (opts : List PollOption) (y : String) :
    y ∈ setOfLowerTexts opts ↔ y ∈ opts.map (fun o => (pyLower o.text)) := by
  unfold setOfLowerTexts
  rw [show (fun (acc : List String) (o : PollOption) => setAdd acc (pyLower o.text))
        = (fun acc o => setAdd acc ((fun o2 : PollOption => (pyLower o2.text)) o)) from rfl,
      ← List.foldl_map (fun o2 : PollOption => (pyLower o2.text)) setAdd,
      mem_foldl_setAdd]
  simp

/-! ## The store invariant -/

/-- Well-formedness of one poll's store slice: option ids are distinct (primary
key) and below the id sequence, every option's stored counter equals the number
of live ballot rows referencing it (pointwise over all ids), and option texts
are pairwise distinct case-insensitively. -/
def Inv (p : PollState) : Prop :=
  (p.options.map (fun o => o.id)).Nodup ∧
  (∀ o ∈ p.options, o.id < p.next_option_id) ∧
  (∀ i, getVotes p.options i = (countBallots p.votes i : Int)) ∧
  (p.options.map (fun o => (pyLower o.text))).Nodup

/-- `Inv` lifted to the optional poll (vacuous when the poll does not exist). -/
def InvS : Option PollState → Prop
  | none => True
  | some p => Inv p

/-! ## Creation establishes the invariant -/

theorem mkPollOptions_ids (base : Nat) (texts : List String) :
    (mkPollOptions base texts).map (fun o => o.id)
      = (List.range texts.length).map (fun i => base + i) := by
  unfold mkPollOptions
  rw [List.map_map, ← List.enum_map_fst texts, List.map_map]
  rfl

theorem mkPollOptions_texts (base : Nat) (texts : List String) :
    (mkPollOptions base texts).map (fun o => o.text) = texts := by
  unfold mkPollOptions
  rw [List.map_map]
  have : ((fun o : PollOption => o.text) ∘ fun p : Nat × String =>
      ({ id := base + p.1, text := p.2, votes := 0 } : PollOption)) = Prod.snd := by
    funext p
    rfl
  rw [this, List.enum_map_snd]

theorem mkPollOptions_votes {base : Nat} {texts : List String} {o : PollOption}
    (ho : o ∈ mkPollOptions base texts) : o.votes = 0 := by
  unfold mkPollOptions at ho
  obtain ⟨p, _, rfl⟩ := List.mem_map.mp ho
  rfl

theorem mkPollOptions_ids_nodup (base : Nat) (texts : List String) :
    ((mkPollOptions base texts).map (fun o => o.id)).Nodup := by
  rw [mkPollOptions_ids]
  exact (List.nodup_range _).map (fun a b h => by omega)

theorem mkPollOptions_id_lt {base : Nat} {texts : List String} {o : PollOption}
    (ho : o ∈ mkPollOptions base texts) : o.id < base + texts.length := by
  have : o.id ∈ (mkPollOptions base texts).map (fun o => o.id) :=
    List.mem_map_of_mem _ ho
  rw [mkPollOptions_ids] at this
  obtain ⟨i, hi, hoi⟩ := List.mem_map.mp this
  rw [List.mem_range] at hi
  omega

theorem getVotes_mkPollOptions (base : Nat) (texts : List String) (i : Nat) :
    getVotes (mkPollOptions base texts) i = 0 := by
  unfold getVotes
  cases hfind : (mkPollOptions base texts).find? (fun o => o.id = i) with
  | none => rfl
  | some o =>
    have ho := List.mem_of_find?_eq_some hfind
    simp [mkPollOptions_votes ho]

theorem validatePollCreate_props {d d2 : PollCreate} (h : validatePollCreate d = some d2) :
    (d2.options.map (fun t => (pyLower t))).Nodup ∧
    2 ≤ d2.options.length ∧ d2.options.length ≤ 20 := by
  unfold validatePollCreate at h
  by_cases h1 : pyStrip d.question = ""
  · rw [if_pos h1] at h
    exact absurd h (by simp)
  · rw [if_neg h1] at h
    by_cases h2 : (d.options.map (fun t => pyStrip t)).any (fun t => t = "") = true
    · rw [if_pos h2] at h
      exact absurd h (by simp)
    · rw [if_neg h2] at h
      by_cases h3 : d.options.length < 2 ∨ 20 < d.options.length
      · rw [if_pos h3] at h
        exact absurd h (by simp)
      · rw [if_neg h3] at h
        by_cases h4 : lowerTextsDistinct (d.options.map (fun t => pyStrip t)) = true
        · rw [if_neg (by simpa using h4)] at h
          by_cases h5 : d.voting_security_level ∈
              ["none", "cookie_basic", "cookie_strict", "ip_address"]
          · rw [if_neg (not_not_intro h5)] at h
            obtain rfl : ({ d with
                question := pyStrip d.question
                options := d.options.map (fun t => pyStrip t)
                creator_display_name := sanitize_creator_display_name d.creator_display_name }
                  : PollCreate) = d2 := Option.some.inj h
            refine ⟨?_, ?_, ?_⟩
            · simpa [lowerTextsDistinct] using of_decide_eq_true (by simpa [lowerTextsDistinct] using h4)
            · simp only [List.length_map]
              omega
            · simp only [List.length_map]
              omega
          · rw [if_pos h5] at h
            exact absurd h (by simp)
        · rw [if_pos (by simpa using h4)] at h
          exact absurd h (by simp)

theorem Inv_create_poll {d d2 : PollCreate} (h : validatePollCreate d = some d2)
    (code : String) (ai ni : Nat) : Inv (create_poll d2 code ai ni) := by
  obtain ⟨hnodup, _, _⟩ := validatePollCreate_props h
  refine ⟨?_, ?_, ?_, ?_⟩
  · exact mkPollOptions_ids_nodup 0 d2.options
  · intro o ho
    have := mkPollOptions_id_lt ho
    simpa [create_poll] using this
  · intro i
    simp [create_poll, getVotes_mkPollOptions, countBallots]
  · show ((mkPollOptions 0 d2.options).map (fun o => (pyLower o.text))).Nodup
    have : (mkPollOptions 0 d2.options).map (fun o => (pyLower o.text))
        = d2.options.map (fun t => (pyLower t)) := by
      rw [show (fun o : PollOption => (pyLower o.text))
            = (fun t : String => (pyLower t)) ∘ (fun o : PollOption => o.text) from rfl]
      rw [← List.map_map, mkPollOptions_texts]
    rw [this]
    exact hnodup

/-! ## Vote success characterization -/

theorem find?_id_isSome_iff (opts : List PollOption) (j : Nat) :
    (opts.find? (fun o => o.id = j)).isSome ↔ j ∈ opts.map (fun o => o.id) := by
  constructor
  · intro h
    obtain ⟨o, ho⟩ := Option.isSome_iff_exists.mp h
    have hmem := List.mem_of_find?_eq_some ho
    have hid : o.id = j := by simpa using List.find?_some ho
    rw [← hid]
    exact List.mem_map_of_mem _ hmem
  · intro h
    obtain ⟨o, ho, hid⟩ := List.mem_map.mp h
    rw [Option.isSome_iff_ne_none]
    intro hnone
    rw [List.find?_eq_none] at hnone
    exact hnone o ho (by simpa using hid)

theorem crud_vote_on_poll_ok {p : PollState} {sel : List Nat} {tok : Option String}
    {mt : String} {q : PollState} {nt : Option String}
    (h : crud_vote_on_poll p sel tok mt = .ok (q, nt)) :
    (∀ j ∈ sel, (p.options.find? (fun o => o.id = j)).isSome) ∧
    q = { p with
          options := applyIncrements (applyDecrements p.options (prevVotesFor p tok)) sel
          votes := survivingVotesFor p tok ++
            sel.map (fun oid => { option_id := oid, voter_token := tok.getD mt }) } ∧
    nt = (if tok.isSome then none else some mt) := by
  unfold crud_vote_on_poll at h
  split at h
  · exact absurd h (by simp)
  · split at h
    · exact absurd h (by simp)
    · next hfind =>
      split at h
      · exact absurd h (by simp)
      · split at h
        · exact absurd h (by simp)
        · split at h
          · have hinj := Except.ok.inj h
            refine ⟨?_, (congrArg Prod.fst hinj).symm, ?_⟩
            · intro j hj
              rw [List.find?_eq_none] at hfind
              have hany : p.options.any (fun o => o.id = j) = true := by
                simpa using hfind j hj
              rw [find?_id_isSome_iff]
              obtain ⟨o, ho, hid⟩ := List.any_eq_true.mp hany
              rw [← show o.id = j by simpa using hid]
              exact List.mem_map_of_mem _ ho
            · have hnt := congrArg Prod.snd hinj
              cases tok <;> simpa using hnt.symm
          · exact absurd h (by simp)

/-! ## Voting preserves the invariant -/

theorem Inv_vote {p q : PollState} {sel : List Nat} {tok : Option String}
    {mt : String} {nt : Option String}
    (hInv : Inv p) (h : crud_vote_on_poll p sel tok mt = .ok (q, nt)) : Inv q := by
  obtain ⟨hpres, hq, -⟩ := crud_vote_on_poll_ok h
  obtain ⟨hnd, hbound, hcnt, htext⟩ := hInv
  subst hq
  refine ⟨?_, ?_, ?_, ?_⟩
  · show ((applyIncrements (applyDecrements p.options (prevVotesFor p tok)) sel).map
      (fun o => o.id)).Nodup
    rw [ids_applyIncrements, ids_applyDecrements]
    exact hnd
  · intro o ho
    show o.id < p.next_option_id
    have hido : o.id ∈ (applyIncrements (applyDecrements p.options (prevVotesFor p tok)) sel).map
        (fun o2 => o2.id) := List.mem_map_of_mem _ ho
    rw [ids_applyIncrements, ids_applyDecrements] at hido
    obtain ⟨o2, ho2, hid2⟩ := List.mem_map.mp hido
    rw [← hid2]
    exact hbound o2 ho2
  · intro i
    have hprevle : (countBallots (prevVotesFor p tok) i : Int)
        ≤ getVotes p.options i := by
      rw [hcnt i]
      cases tok with
      | none => simp [prevVotesFor, countBallots]
      | some t =>
        have := countBallots_filter_le p.votes (fun v => v.voter_token = t) i
        simp only [prevVotesFor]
        omega
    have hgv := getVotes_applyDecrements (prevVotesFor p tok) p.options i hprevle
    have hpres2 : ∀ j ∈ sel,
        ((applyDecrements p.options (prevVotesFor p tok)).find? (fun o => o.id = j)).isSome := by
      intro j hj
      rw [find?_id_isSome_iff, ids_applyDecrements, ← find?_id_isSome_iff]
      exact hpres j hj
    rw [show ({ p with
          options := applyIncrements (applyDecrements p.options (prevVotesFor p tok)) sel
          votes := survivingVotesFor p tok ++
            sel.map (fun oid => { option_id := oid, voter_token := tok.getD mt }) }
        : PollState).options
        = applyIncrements (applyDecrements p.options (prevVotesFor p tok)) sel from rfl]
    rw [getVotes_applyIncrements sel _ i hpres2, hgv]
    show _ = (countBallots (survivingVotesFor p tok ++
      sel.map (fun oid => { option_id := oid, voter_token := tok.getD mt })) i : Int)
    rw [countBallots_append, countBallots_map_mk]
    cases tok with
    | none =>
      simp only [prevVotesFor, survivingVotesFor]
      rw [hcnt i]
      simp [countBallots]
    | some t =>
      have hsplit := countBallots_filter_token p.votes t i
      simp only [prevVotesFor, survivingVotesFor]
      rw [hcnt i]
      push_cast
      omega
  · show ((applyIncrements (applyDecrements p.options (prevVotesFor p tok)) sel).map
      (fun o => (pyLower o.text))).Nodup
    have : (applyIncrements (applyDecrements p.options (prevVotesFor p tok)) sel).map
        (fun o => (pyLower o.text)) = p.options.map (fun o => (pyLower o.text)) := by
      rw [show (fun o : PollOption => (pyLower o.text))
            = (fun t : String => (pyLower t)) ∘ (fun o : PollOption => o.text) from rfl]
      rw [← List.map_map, texts_applyIncrements, texts_applyDecrements, List.map_map]
    rw [this]
    exact htext

/-! ## The update loops preserve the invariant -/

theorem id_inj_of_nodup {opts : List PollOption}
    (h : (opts.map (fun o => o.id)).Nodup) {o1 o2 : PollOption}
    (h1 : o1 ∈ opts) (h2 : o2 ∈ opts) (he : o1.id = o2.id) : o1 = o2 :=
  List.inj_on_of_nodup_map h h1 h2 he

theorem lower_inj_of_nodup {opts : List PollOption}
    (h : (opts.map (fun o => (pyLower o.text))).Nodup) {o1 o2 : PollOption}
    (h1 : o1 ∈ opts) (h2 : o2 ∈ opts) (he : (pyLower o1.text) = (pyLower o2.text)) : o1 = o2 :=
  List.inj_on_of_nodup_map h h1 h2 he

/-- Loop invariant of the option-mutation phases of `update_poll`, over a fixed
ballot table `votes`: option ids distinct and below the id sequence, counters
pointwise correct, lowered texts pairwise distinct, and the working
`current_option_texts_lower` set in sync with the option rows. -/
def CtxInv (votes : List IndividualVote) (ctx : UpdCtx) : Prop :=
  (ctx.options.map (fun o => o.id)).Nodup ∧
  (∀ o ∈ ctx.options, o.id < ctx.next_option_id) ∧
  (∀ i, getVotes ctx.options i = (countBallots votes i : Int)) ∧
  (ctx.options.map (fun o => (pyLower o.text))).Nodup ∧
  (∀ x, x ∈ ctx.texts ↔ x ∈ ctx.options.map (fun o => (pyLower o.text)))

theorem removeOne_inv {votes : List IndividualVote} {ctx ctx2 : UpdCtx} {rid : Nat}
    (hInv : CtxInv votes ctx) (h : removeOne votes ctx rid = .ok ctx2) :
    CtxInv votes ctx2 := by
  obtain ⟨hids, hbound, hcnt, htxt, hsync⟩ := hInv
  unfold removeOne at h
  split at h
  · exact absurd h (by simp)
  · next o hfind =>
    split at h
    · exact absurd h (by simp)
    · next hvz =>
      have ho : o ∈ ctx.options := List.mem_of_find?_eq_some hfind
      have hoid : o.id = rid := by simpa using List.find?_some hfind
      have hzero : countBallots votes rid = 0 := by
        have : (votes.filter (fun b => b.option_id = rid)).length = 0 := by omega
        rw [countBallots, List.countP_eq_length_filter]
        exact this
      obtain rfl := Except.ok.inj h
      refine ⟨?_, ?_, ?_, ?_, ?_⟩
      · exact ((List.filter_sublist _).map _).nodup hids
      · intro o2 ho2
        exact hbound o2 (List.mem_of_mem_filter ho2)
      · intro i
        show getVotes (ctx.options.filter (fun o2 => o2.id ≠ rid)) i = _
        by_cases hir : i = rid
        · subst hir
          unfold getVotes
          rw [find?_filter_id_self, hzero]
          rfl
        · unfold getVotes
          rw [find?_filter_id_ne _ _ _ hir]
          exact hcnt i
      · exact ((List.filter_sublist _).map _).nodup htxt
      · intro x
        show x ∈ setDiscard ctx.texts (pyLower o.text) ↔ _
        rw [mem_setDiscard, hsync x]
        constructor
        · rintro ⟨hx, hxo⟩
          obtain ⟨o2, ho2, hx2⟩ := List.mem_map.mp hx
          refine List.mem_map.mpr ⟨o2, List.mem_filter.mpr ⟨ho2, ?_⟩, hx2⟩
          simp only [decide_eq_true_eq]
          intro hcon
          have ho2o : o2 = o := id_inj_of_nodup hids ho2 ho (hcon.trans hoid.symm)
          exact hxo (by rw [← hx2, ho2o])
        · intro hx
          obtain ⟨o2, ho2, hx2⟩ := List.mem_map.mp hx
          have ho2m := List.mem_of_mem_filter ho2
          have ho2r : o2.id ≠ rid := by simpa using (List.mem_filter.mp ho2).2
          refine ⟨List.mem_map.mpr ⟨o2, ho2m, hx2⟩, ?_⟩
          intro hcon
          have : o2 = o := lower_inj_of_nodup htxt ho2m ho (by rw [hx2, hcon])
          exact ho2r (this ▸ hoid)

theorem getVotes_rename (opts : List PollOption) (rid : Nat) (t : String) (i : Nat) :
    getVotes (opts.map (fun o2 => if o2.id = rid then { o2 with text := t } else o2)) i
      = getVotes opts i := by
  unfold getVotes
  rw [find?_map_id_preserving _ (by intro o; by_cases h : o.id = rid <;> simp [h])]
  cases hfind : opts.find? (fun o => o.id = i) with
  | none => rfl
  | some o => by_cases h : o.id = rid <;> simp [h]

theorem ids_rename (opts : List PollOption) (rid : Nat) (t : String) :
    (opts.map (fun o2 => if o2.id = rid then { o2 with text := t } else o2)).map
        (fun o => o.id) = opts.map (fun o => o.id) :=
  map_field_map_of_preserving _ _ (by intro o; by_cases h : o.id = rid <;> simp [h]) opts

theorem nodup_lower_rename {opts : List PollOption} {rid : Nat} {t : String}
    (hids : (opts.map (fun o => o.id)).Nodup)
    (htxt : (opts.map (fun o => (pyLower o.text))).Nodup)
    (hnew : ∀ o2 ∈ opts, o2.id ≠ rid → (pyLower o2.text) ≠ (pyLower t)) :
    ((opts.map (fun o2 => if o2.id = rid then { o2 with text := t } else o2)).map
      (fun o => (pyLower o.text))).Nodup := by
  induction opts with
  | nil => simp
  | cons a rest ih =>
    rw [List.map_cons, List.nodup_cons] at hids htxt
    rw [List.map_cons, List.map_cons, List.nodup_cons]
    by_cases har : a.id = rid
    · have hrest : rest.map (fun o2 => if o2.id = rid then { o2 with text := t } else o2)
          = rest := by
        have hstep : rest.map (fun o2 => if o2.id = rid then { o2 with text := t } else o2)
            = rest.map id := by
          apply List.map_congr_left
          intro o2 ho2
          have hne2 : ¬ o2.id = rid := by
            intro hcon
            exact hids.1 (by rw [har, ← hcon]; exact List.mem_map_of_mem _ ho2)
          simp [hne2]
        rw [hstep, List.map_id]
      rw [har, if_pos rfl, hrest]
      refine ⟨?_, htxt.2⟩
      intro hcon
      obtain ⟨o2, ho2, hlow⟩ := List.mem_map.mp hcon
      have ho2r : o2.id ≠ rid := by
        intro hcon2
        exact hids.1 (by rw [har, ← hcon2]; exact List.mem_map_of_mem _ ho2)
      exact hnew o2 (List.mem_cons_of_mem _ ho2) ho2r hlow
    · rw [if_neg har]
      refine ⟨?_, ih hids.2 htxt.2
        (fun o2 ho2 hne => hnew o2 (List.mem_cons_of_mem _ ho2) hne)⟩
      intro hcon
      obtain ⟨o2g, ho2g, hlow⟩ := List.mem_map.mp hcon
      obtain ⟨o2, ho2, rfl⟩ := List.mem_map.mp ho2g
      by_cases h2r : o2.id = rid
      · rw [if_pos h2r] at hlow
        exact hnew a (List.mem_cons_self _ _) har hlow.symm
      · rw [if_neg h2r] at hlow
        exact htxt.1 (by rw [← hlow]; exact List.mem_map_of_mem _ ho2)

theorem renameOne_inv {votes : List IndividualVote} {ctx ctx2 : UpdCtx}
    {r : PollOptionTextUpdate} (hInv : CtxInv votes ctx)
    (h : renameOne ctx r = .ok ctx2) : CtxInv votes ctx2 := by
  obtain ⟨hids, hbound, hcnt, htxt, hsync⟩ := hInv
  unfold renameOne at h
  split at h
  · exact absurd h (by simp)
  · next o hfind =>
    have ho : o ∈ ctx.options := List.mem_of_find?_eq_some hfind
    have hoid : o.id = r.id := by simpa using List.find?_some hfind
    split at h
    · next hne =>
      split at h
      · exact absurd h (by simp)
      · next hdup =>
        have hnew : ∀ o2 ∈ ctx.options, o2.id ≠ r.id → (pyLower o2.text) ≠ (pyLower r.text) := by
          intro o2 ho2 h2r hcon
          apply hdup
          rw [mem_setDiscard, hsync]
          refine ⟨List.mem_map.mpr ⟨o2, ho2, hcon⟩, ?_⟩
          rw [← hcon]
          intro hcon2
          exact h2r ((lower_inj_of_nodup htxt ho2 ho hcon2) ▸ hoid)
        obtain rfl := Except.ok.inj h
        refine ⟨?_, ?_, ?_, ?_, ?_⟩
        · show ((ctx.options.map _).map _).Nodup
          rw [ids_rename]
          exact hids
        · intro o2 ho2
          obtain ⟨o3, ho3, rfl⟩ := List.mem_map.mp ho2
          show _ < ctx.next_option_id
          have := hbound o3 ho3
          by_cases h3 : o3.id = r.id <;> simp [h3] <;> omega
        · intro i
          show getVotes (ctx.options.map _) i = _
          rw [getVotes_rename]
          exact hcnt i
        · exact nodup_lower_rename hids htxt hnew
        · intro x
          show x ∈ setAdd (setDiscard ctx.texts (pyLower o.text)) (pyLower r.text) ↔ _
          rw [mem_setAdd, mem_setDiscard, hsync x]
          constructor
          · rintro (⟨hx, hxo⟩ | rfl)
            · obtain ⟨o2, ho2, hx2⟩ := List.mem_map.mp hx
              have h2r : o2.id ≠ r.id := by
                intro hcon
                have ho2o : o2 = o := id_inj_of_nodup hids ho2 ho (hcon.trans hoid.symm)
                exact hxo (by rw [← hx2, ho2o])
              refine List.mem_map.mpr
                ⟨(if o2.id = r.id then { o2 with text := r.text } else o2),
                 List.mem_map_of_mem _ ho2, ?_⟩
              rw [if_neg h2r]
              exact hx2
            · exact List.mem_map.mpr
                ⟨(if o.id = r.id then { o with text := r.text } else o),
                 List.mem_map_of_mem _ ho, by rw [if_pos hoid]⟩
          · intro hx
            obtain ⟨o3, ho3, hx3⟩ := List.mem_map.mp hx
            obtain ⟨o2, ho2, rfl⟩ := List.mem_map.mp ho3
            by_cases h2r : o2.id = r.id
            · rw [if_pos h2r] at hx3
              exact Or.inr hx3.symm
            · rw [if_neg h2r] at hx3
              refine Or.inl ⟨List.mem_map.mpr ⟨o2, ho2, hx3⟩, ?_⟩
              rw [← hx3]
              intro hcon
              exact h2r ((lower_inj_of_nodup htxt ho2 ho hcon) ▸ hoid)
    · obtain rfl := Except.ok.inj h
      exact ⟨hids, hbound, hcnt, htxt, hsync⟩

theorem addOne_inv {votes : List IndividualVote} {ctx ctx2 : UpdCtx} {newText : String}
    (hInv : CtxInv votes ctx) (h : addOne ctx newText = .ok ctx2) : CtxInv votes ctx2 := by
  obtain ⟨hids, hbound, hcnt, htxt, hsync⟩ := hInv
  unfold addOne at h
  split at h
  · exact absurd h (by simp)
  · next hdup =>
    obtain rfl := Except.ok.inj h
    have hfresh : ctx.next_option_id ∉ ctx.options.map (fun o => o.id) := by
      intro hcon
      obtain ⟨o2, ho2, h2⟩ := List.mem_map.mp hcon
      have := hbound o2 ho2
      omega
    refine ⟨?_, ?_, ?_, ?_, ?_⟩
    · show ((ctx.options ++ [_]).map _).Nodup
      rw [List.map_append]
      rw [List.nodup_append]
      refine ⟨hids, List.nodup_singleton _, ?_⟩
      intro x hx hx2
      simp only [List.map_cons, List.map_nil, List.mem_singleton] at hx2
      exact hfresh (hx2 ▸ hx)
    · intro o2 ho2
      show o2.id < ctx.next_option_id + 1
      rcases List.mem_append.mp ho2 with h2 | h2
      · have := hbound o2 h2
        omega
      · simp only [List.mem_singleton] at h2
        rw [h2]
        simp
    · intro i
      show getVotes (ctx.options ++ [_]) i = _
      unfold getVotes
      rw [List.find?_append]
      cases hfind : ctx.options.find? (fun o => o.id = i) with
      | some o =>
        have := hcnt i
        unfold getVotes at this
        rw [hfind] at this
        simpa using this
      | none =>
        simp only [Option.none_or]
        by_cases hni : ctx.next_option_id = i
        · have h0 : (countBallots votes i : Int) = 0 := by
            rw [← hcnt i]
            unfold getVotes
            rw [hfind]
          rw [List.find?_cons_of_pos _ (by simpa using hni)]
          simp [h0.symm]
        · rw [List.find?_cons_of_neg _ (by simpa using hni)]
          have := hcnt i
          unfold getVotes at this
          rw [hfind] at this
          simpa using this
    · show ((ctx.options ++ [_]).map _).Nodup
      rw [List.map_append, List.nodup_append]
      refine ⟨htxt, List.nodup_singleton _, ?_⟩
      intro x hx hx2
      simp only [List.map_cons, List.map_nil, List.mem_singleton] at hx2
      apply hdup
      rw [hsync]
      rw [hx2] at hx
      exact hx
    · intro x
      show x ∈ setAdd ctx.texts (pyLower newText) ↔ _
      rw [mem_setAdd, hsync x, List.map_append]
      simp [List.mem_append]

theorem processRemovals_inv {votes : List IndividualVote} {ctx ctx2 : UpdCtx}
    {ids : List Nat} (hInv : CtxInv votes ctx)
    (h : processRemovals votes ctx ids = .ok ctx2) : CtxInv votes ctx2 := by
  induction ids generalizing ctx with
  | nil =>
    unfold processRemovals at h
    obtain rfl := Except.ok.inj h
    exact hInv
  | cons rid rest ih =>
    unfold processRemovals at h
    cases hstep : removeOne votes ctx rid with
    | error e => rw [hstep] at h; exact absurd h (by simp [Bind.bind, Except.bind])
    | ok c =>
      rw [hstep] at h
      exact ih (removeOne_inv hInv hstep) h

theorem processRenames_inv {votes : List IndividualVote} {ctx ctx2 : UpdCtx}
    {rs : List PollOptionTextUpdate} (hInv : CtxInv votes ctx)
    (h : processRenames ctx rs = .ok ctx2) : CtxInv votes ctx2 := by
  induction rs generalizing ctx with
  | nil =>
    unfold processRenames at h
    obtain rfl := Except.ok.inj h
    exact hInv
  | cons r rest ih =>
    unfold processRenames at h
    cases hstep : renameOne ctx r with
    | error e => rw [hstep] at h; exact absurd h (by simp [Bind.bind, Except.bind])
    | ok c =>
      rw [hstep] at h
      exact ih (renameOne_inv hInv hstep) h

theorem processAdds_inv {votes : List IndividualVote} {ctx ctx2 : UpdCtx}
    {ts : List String} (hInv : CtxInv votes ctx)
    (h : processAdds ctx ts = .ok ctx2) : CtxInv votes ctx2 := by
  induction ts generalizing ctx with
  | nil =>
    unfold processAdds at h
    obtain rfl := Except.ok.inj h
    exact hInv
  | cons t rest ih =>
    unfold processAdds at h
    cases hstep : addOne ctx t with
    | error e => rw [hstep] at h; exact absurd h (by simp [Bind.bind, Except.bind])
    | ok c =>
      rw [hstep] at h
      exact ih (addOne_inv hInv hstep) h

/-- The scalar-field block touches only the scalar columns of the poll row:
options, ballots, history, timestamp and the id sequence are untouched. -/
theorem applyScalarUpdates_frame (p : PollState) (u : PollUpdate) :
    (applyScalarUpdates p u).1.options = p.options ∧
    (applyScalarUpdates p u).1.votes = p.votes ∧
    (applyScalarUpdates p u).1.next_option_id = p.next_option_id ∧
    (applyScalarUpdates p u).1.edit_history = p.edit_history ∧
    (applyScalarUpdates p u).1.updated_at_tick = p.updated_at_tick ∧
    (applyScalarUpdates p u).1.modification_code = p.modification_code := by
  unfold applyScalarUpdates
  cases u.question <;> cases u.is_public <;> cases u.allow_multiple_selections <;>
    · dsimp only
      repeat' split
      all_goals simp

/-! ## The invariant holds in every reachable store state -/

theorem Inv_update {p q : PollState} {u : PollUpdate} {tick : Nat}
    (hInv : Inv p) (h : update_poll p u tick = .ok q) : Inv q := by
  obtain ⟨hids, hbound, hcnt, htxt⟩ := hInv
  unfold update_poll at h
  split at h
  · exact absurd h (by simp)
  · obtain ⟨hopt, hvot, hnext, -, -, -⟩ := applyScalarUpdates_frame p u
    rcases happ : applyScalarUpdates p u with ⟨p1, hsc⟩
    rw [happ] at h hopt hvot hnext
    dsimp only at h hopt hvot hnext
    have hctx0 : CtxInv p1.votes
        { options := p1.options, texts := setOfLowerTexts p1.options,
          history := hsc, next_option_id := p1.next_option_id } := by
      refine ⟨?_, ?_, ?_, ?_, ?_⟩
      · rw [hopt]; exact hids
      · intro o ho; rw [hopt] at ho; rw [hnext]; exact hbound o ho
      · intro i; rw [hopt, hvot]; exact hcnt i
      · rw [hopt]; exact htxt
      · intro x; exact mem_setOfLowerTexts p1.options x
    cases h1 : processRemovals p1.votes
        { options := p1.options, texts := setOfLowerTexts p1.options,
          history := hsc, next_option_id := p1.next_option_id } u.option_ids_to_remove with
    | error e => rw [h1] at h; exact absurd h (by simp [Bind.bind, Except.bind])
    | ok ctx1 =>
      rw [h1] at h
      simp only [Bind.bind, Except.bind] at h
      have hc1 := processRemovals_inv hctx0 h1
      cases h2 : processRenames ctx1 u.options_to_update with
      | error e => rw [h2] at h; exact absurd h (by simp [Bind.bind, Except.bind])
      | ok ctx2 =>
        rw [h2] at h
        simp only [Bind.bind, Except.bind] at h
        have hc2 := processRenames_inv hc1 h2
        cases h3 : processAdds ctx2 u.options_to_add with
        | error e => rw [h3] at h; exact absurd h (by simp [Bind.bind, Except.bind])
        | ok ctx3 =>
          rw [h3] at h
          have hc3 := processAdds_inv hc2 h3
          simp only [Bind.bind, Except.bind, Except.ok.injEq] at h
          obtain ⟨hcids, hcbound, hccnt, hctxt, -⟩ := hc3
          subst h
          exact ⟨hcids, hcbound, by intro i; rw [show ({ p1 with
              options := ctx3.options
              next_option_id := ctx3.next_option_id
              edit_history := p1.edit_history ++ ctx3.history
              updated_at_tick := if ctx3.history.isEmpty then p1.updated_at_tick else tick }
                : PollState).votes = p1.votes from rfl]; exact hccnt i, hctxt⟩

theorem InvS_applyOp (s : Option PollState) (op : PollOp)
    (hInv : InvS s) : InvS (applyOp s op) := by
  cases op with
  | createOp d code ai ni =>
    cases s with
    | none =>
      show InvS (match validatePollCreate d with
        | some d2 => some (create_poll d2 code ai ni)
        | none => none)
      cases hv : validatePollCreate d with
      | none => trivial
      | some d2 => exact Inv_create_poll hv code ai ni
    | some p => exact hInv
  | voteOp sel ck mt =>
    cases s with
    | none => trivial
    | some p =>
      show InvS (match vote_on_poll_endpoint p sel ck mt with
        | .ok (p2, _) => some p2
        | .error _ => some p)
      cases hv : vote_on_poll_endpoint p sel ck mt with
      | error e => exact hInv
      | ok pr =>
        rcases pr with ⟨p2, nt⟩
        exact Inv_vote hInv hv
  | updateOp u tick =>
    cases s with
    | none => trivial
    | some p =>
      show InvS (match update_poll p u tick with
        | .ok p2 => some p2
        | .error _ => some p)
      cases hv : update_poll p u tick with
      | error e => exact hInv
      | ok p2 => exact Inv_update hInv hv
  | deleteOp code =>
    cases s with
    | none => trivial
    | some p =>
      show InvS (match delete_poll p code with
        | .ok _ => none
        | .error _ => some p)
      cases hv : delete_poll p code with
      | error e => exact hInv
      | ok u => trivial

theorem InvS_runOps (ops : List PollOp) : InvS (runOps ops) := by
  have hgen : ∀ s, InvS s → InvS (ops.foldl applyOp s) := by
    induction ops with
    | nil => intro s hs; exact hs
    | cons op rest ih =>
      intro s hs
      rw [List.foldl_cons]
      exact ih _ (InvS_applyOp s op hs)
  exact hgen none trivial

/-! ## Edit-history bookkeeping of the update phases -/

theorem removeOne_history {votes : List IndividualVote} {ctx ctx2 : UpdCtx} {rid : Nat}
    (h : removeOne votes ctx rid = .ok ctx2) :
    ∃ l, ctx2.history = ctx.history ++ l ∧
      ∀ e ∈ l, e.field_changed = "option_removed" := by
  unfold removeOne at h
  split at h
  · exact absurd h (by simp)
  · split at h
    · exact absurd h (by simp)
    · obtain rfl := Except.ok.inj h
      refine ⟨_, rfl, ?_⟩
      intro e he
      rw [List.mem_singleton] at he
      rw [he]

theorem renameOne_history {ctx ctx2 : UpdCtx} {r : PollOptionTextUpdate}
    (h : renameOne ctx r = .ok ctx2) :
    ∃ l, ctx2.history = ctx.history ++ l ∧
      ∀ e ∈ l, e.field_changed = "option_text_updated" := by
  unfold renameOne at h
  split at h
  · exact absurd h (by simp)
  · split at h
    · split at h
      · exact absurd h (by simp)
      · obtain rfl := Except.ok.inj h
        refine ⟨_, rfl, ?_⟩
        intro e he
        rw [List.mem_singleton] at he
        rw [he]
    · obtain rfl := Except.ok.inj h
      exact ⟨[], by simp, by simp⟩

theorem addOne_history {ctx ctx2 : UpdCtx} {t : String}
    (h : addOne ctx t = .ok ctx2) :
    ∃ l, ctx2.history = ctx.history ++ l ∧
      ∀ e ∈ l, e.field_changed = "option_added" := by
  unfold addOne at h
  split at h
  · exact absurd h (by simp)
  · obtain rfl := Except.ok.inj h
    refine ⟨_, rfl, ?_⟩
    intro e he
    rw [List.mem_singleton] at he
    rw [he]

theorem processRemovals_history {votes : List IndividualVote} {ctx ctx2 : UpdCtx}
    {ids : List Nat} (h : processRemovals votes ctx ids = .ok ctx2) :
    ∃ l, ctx2.history = ctx.history ++ l ∧
      ∀ e ∈ l, e.field_changed = "option_removed" := by
  induction ids generalizing ctx with
  | nil =>
    unfold processRemovals at h
    obtain rfl := Except.ok.inj h
    exact ⟨[], by simp, by simp⟩
  | cons rid rest ih =>
    unfold processRemovals at h
    cases hstep : removeOne votes ctx rid with
    | error e => rw [hstep] at h; exact absurd h (by simp [Bind.bind, Except.bind])
    | ok c =>
      rw [hstep] at h
      simp only [Bind.bind, Except.bind] at h
      obtain ⟨l1, hl1, ht1⟩ := removeOne_history hstep
      obtain ⟨l2, hl2, ht2⟩ := ih h
      refine ⟨l1 ++ l2, ?_, ?_⟩
      · rw [hl2, hl1, List.append_assoc]
      · intro e he
        rcases List.mem_append.mp he with h1 | h2
        · exact ht1 e h1
        · exact ht2 e h2

theorem processRenames_history {ctx ctx2 : UpdCtx} {rs : List PollOptionTextUpdate}
    (h : processRenames ctx rs = .ok ctx2) :
    ∃ l, ctx2.history = ctx.history ++ l ∧
      ∀ e ∈ l, e.field_changed = "option_text_updated" := by
  induction rs generalizing ctx with
  | nil =>
    unfold processRenames at h
    obtain rfl := Except.ok.inj h
    exact ⟨[], by simp, by simp⟩
  | cons r rest ih =>
    unfold processRenames at h
    cases hstep : renameOne ctx r with
    | error e => rw [hstep] at h; exact absurd h (by simp [Bind.bind, Except.bind])
    | ok c =>
      rw [hstep] at h
      simp only [Bind.bind, Except.bind] at h
      obtain ⟨l1, hl1, ht1⟩ := renameOne_history hstep
      obtain ⟨l2, hl2, ht2⟩ := ih h
      refine ⟨l1 ++ l2, ?_, ?_⟩
      · rw [hl2, hl1, List.append_assoc]
      · intro e he
        rcases List.mem_append.mp he with h1 | h2
        · exact ht1 e h1
        · exact ht2 e h2

theorem processAdds_history {ctx ctx2 : UpdCtx} {ts : List String}
    (h : processAdds ctx ts = .ok ctx2) :
    ∃ l, ctx2.history = ctx.history ++ l ∧
      ∀ e ∈ l, e.field_changed = "option_added" := by
  induction ts generalizing ctx with
  | nil =>
    unfold processAdds at h
    obtain rfl := Except.ok.inj h
    exact ⟨[], by simp, by simp⟩
  | cons t rest ih =>
    unfold processAdds at h
    cases hstep : addOne ctx t with
    | error e => rw [hstep] at h; exact absurd h (by simp [Bind.bind, Except.bind])
    | ok c =>
      rw [hstep] at h
      simp only [Bind.bind, Except.bind] at h
      obtain ⟨l1, hl1, ht1⟩ := addOne_history hstep
      obtain ⟨l2, hl2, ht2⟩ := ih h
      refine ⟨l1 ++ l2, ?_, ?_⟩
      · rw [hl2, hl1, List.append_assoc]
      · intro e he
        rcases List.mem_append.mp he with h1 | h2
        · exact ht1 e h1
        · exact ht2 e h2

theorem applyScalarUpdates_tags (p : PollState) (u : PollUpdate) :
    ∀ e ∈ (applyScalarUpdates p u).2,
      e.field_changed = "question" ∨ e.field_changed = "is_public" ∨
        e.field_changed = "allow_multiple_selections" := by
  unfold applyScalarUpdates
  cases u.question <;> cases u.is_public <;> cases u.allow_multiple_selections <;>
    · dsimp only
      repeat' split
      all_goals intro e he
      all_goals simp only [List.mem_append, List.mem_singleton, List.not_mem_nil,
        or_false, false_or] at he
      all_goals (rcases he with (rfl | rfl) | rfl) <;> simp

/-! ## Update success: history decomposition and no-op behaviour -/

theorem update_poll_ok_structure {p q : PollState} {u : PollUpdate} {tick : Nat}
    (h : update_poll p u tick = .ok q) :
    ∃ hs l1 l2 l3,
      q.edit_history = p.edit_history ++ (hs ++ l1 ++ l2 ++ l3) ∧
      (∀ e ∈ hs, e.field_changed = "question" ∨ e.field_changed = "is_public" ∨
        e.field_changed = "allow_multiple_selections") ∧
      (∀ e ∈ l1, e.field_changed = "option_removed") ∧
      (∀ e ∈ l2, e.field_changed = "option_text_updated") ∧
      (∀ e ∈ l3, e.field_changed = "option_added") := by
  unfold update_poll at h
  split at h
  · exact absurd h (by simp)
  · obtain ⟨-, -, -, hhist, -, -⟩ := applyScalarUpdates_frame p u
    have htags := applyScalarUpdates_tags p u
    rcases happ : applyScalarUpdates p u with ⟨p1, hs⟩
    rw [happ] at h hhist htags
    dsimp only at h hhist htags
    cases h1 : processRemovals p1.votes
        { options := p1.options, texts := setOfLowerTexts p1.options,
          history := hs, next_option_id := p1.next_option_id } u.option_ids_to_remove with
    | error e => rw [h1] at h; exact absurd h (by simp [Bind.bind, Except.bind])
    | ok ctx1 =>
      rw [h1] at h
      simp only [Bind.bind, Except.bind] at h
      obtain ⟨l1, hl1, ht1⟩ := processRemovals_history h1
      cases h2 : processRenames ctx1 u.options_to_update with
      | error e => rw [h2] at h; exact absurd h (by simp [Bind.bind, Except.bind])
      | ok ctx2 =>
        rw [h2] at h
        simp only [Bind.bind, Except.bind] at h
        obtain ⟨l2, hl2, ht2⟩ := processRenames_history h2
        cases h3 : processAdds ctx2 u.options_to_add with
        | error e => rw [h3] at h; exact absurd h (by simp [Bind.bind, Except.bind])
        | ok ctx3 =>
          rw [h3] at h
          simp only [Bind.bind, Except.bind, Except.ok.injEq] at h
          obtain ⟨l3, hl3, ht3⟩ := processAdds_history h3
          refine ⟨hs, l1, l2, l3, ?_, htags, ht1, ht2, ht3⟩
          subst h
          show p1.edit_history ++ ctx3.history = _
          rw [hhist, hl3, hl2, hl1]

theorem applyScalarUpdates_noop {p : PollState} {u : PollUpdate}
    (hq : ∀ q0, u.question = some q0 → q0 = p.question)
    (hp : ∀ b, u.is_public = some b → b = p.is_public)
    (hm : ∀ b, u.allow_multiple_selections = some b → b = p.allow_multiple_selections) :
    applyScalarUpdates p u = (p, []) := by
  unfold applyScalarUpdates
  rcases hqq : u.question with _ | q0 <;> rcases hpp : u.is_public with _ | b1 <;>
    rcases hmm : u.allow_multiple_selections with _ | b2 <;>
    dsimp only <;>
    (try rw [hq q0 hqq]) <;> (try rw [hp b1 hpp]) <;> (try rw [hm b2 hmm]) <;>
    simp

theorem renameOne_noop {ctx : UpdCtx} {r : PollOptionTextUpdate} {o : PollOption}
    (hids : (ctx.options.map (fun o2 => o2.id)).Nodup)
    (ho : o ∈ ctx.options) (hid : o.id = r.id) (htext : o.text = r.text) :
    renameOne ctx r = .ok ctx := by
  have hfind : ctx.options.find? (fun o2 => o2.id = r.id) = some o := by
    rw [← hid]
    exact find?_eq_of_mem_nodup hids ho
  unfold renameOne
  simp only [hfind]
  rw [if_neg (not_not_intro htext)]

theorem processRenames_noop {ctx : UpdCtx} {rs : List PollOptionTextUpdate}
    (hids : (ctx.options.map (fun o2 => o2.id)).Nodup)
    (hok : ∀ r ∈ rs, ∃ o ∈ ctx.options, o.id = r.id ∧ o.text = r.text) :
    processRenames ctx rs = .ok ctx := by
  induction rs with
  | nil => rfl
  | cons r rest ih =>
    obtain ⟨o, ho, hid, htext⟩ := hok r (List.mem_cons_self _ _)
    unfold processRenames
    rw [renameOne_noop hids ho hid htext]
    simp only [Bind.bind, Except.bind]
    exact ih (fun r2 h2 => hok r2 (List.mem_cons_of_mem _ h2))

/-! ## The update operation as a transaction (routers/poll.py + database.py):
validation errors roll the session back, leaving the stored poll untouched. -/

/-- `update_poll` as seen from the store: the resulting stored state for the
poll id, plus the error reported, if any.  A missing poll reports `NotFound`;
any error from the engine leaves the stored state unchanged, since every raise in
crud/poll.py `update_poll` happens before `db.commit()` and `get_db` closes
(and thereby rolls back) the session. -/
def update_poll_txn (s : Option PollState) (u : PollUpdate) (newTick : Nat) :
    Option PollState × Option UpdateError :=
  match s with
  | none => (none, some .pollNotFound)
  | some p =>
    match update_poll p u newTick with
    | .ok q => (some q, none)
    | .error e => (some p, some e)

/-! ## Ballot filtering helpers -/

theorem filter_token_of_filter_ne (l : List IndividualVote) (t : String) :
    (l.filter (fun v => v.voter_token ≠ t)).filter (fun v => v.voter_token = t) = [] := by
  induction l with
  | nil => rfl
  | cons v rest ih =>
    rw [List.filter_cons]
    by_cases ht : v.voter_token = t
    · simp [ht, ih]
    · rw [if_pos (by simpa using ht), List.filter_cons, if_neg (by simpa using ht)]
      exact ih

/-! ## Concrete example states used by witnesses and counterexamples -/

/-- A poll with two zero-vote options Red (id 1) and Blue (id 2). -/
def examplePoll : PollState :=
  { question := "Best color?", creator_display_name := some "Alice",
    allow_multiple_selections := false, voting_security_level := "cookie_basic",
    is_public := true, modification_code := "SECRET01",
    options := [{ id := 1, text := "Red", votes := 0 }, { id := 2, text := "Blue", votes := 0 }],
    votes := [], edit_history := [], updated_at_tick := 0, next_option_id := 3 }

/-- A well-formed creation request with options Red and Blue. -/
def exampleCreate : PollCreate :=
  { question := "Best color?", creator_display_name := none,
    allow_multiple_selections := false, voting_security_level := "cookie_basic",
    is_public := true, options := ["Red", "Blue"] }

/-! ## Observations on optional poll states and operation results -/

/-- The counter invariant on the optional poll state: every option row's stored
counter equals the number of live ballot rows referencing it (vacuous when the
poll does not exist). -/
def countersConsistentS : Option PollState → Prop
  | none => True
  | some p => ∀ o ∈ p.options, o.votes = (countBallots p.votes o.id : Int)

/-- Case-insensitive pairwise distinctness of the option texts of the optional
poll state. -/
def optionTextsDistinctS : Option PollState → Prop
  | none => True
  | some p => (p.options.map (fun o => (pyLower o.text))).Nodup

/-- The number of option rows of a successful update's resulting poll. -/
def resultOptionCount : Except UpdateError PollState → Option Nat
  | .ok q => some q.options.length
  | .error _ => none

/-- The `field_changed` tags of a successful update's resulting edit history,
in storage order. -/
def resultHistoryTags : Except UpdateError PollState → Option (List String)
  | .ok q => some (q.edit_history.map (fun e => e.field_changed))
  | .error _ => none

/-! ## Claim C1 -/

/-- Claim C1: for every poll and every option O of that poll, after any
sequence of completed operations (createPoll, castVote, updatePoll,
deletePoll) starting from the poll's absence, the denormalized counter
`O.votes` equals the number of live IndividualVote rows referencing O. -/
theorem claim_C1_counter_invariant (ops : List PollOp) :
    countersConsistentS (runOps ops) := by
  have hInv := InvS_runOps ops
  cases hrun : runOps ops with
  | none => trivial
  | some p =>
    rw [hrun] at hInv
    obtain ⟨hids, -, hcnt, -⟩ := hInv
    show ∀ o ∈ p.options, o.votes = (countBallots p.votes o.id : Int)
    intro o ho
    have hi := hcnt o.id
    unfold getVotes at hi
    rw [find?_eq_of_mem_nodup hids ho] at hi
    exact hi

/-! ## Claim C2 -/

/-- Claim C2: casting with an existing voter-token deletes that token's prior
ballots for the poll, decrements each affected option's counter by one floored
at zero, and inserts the new ballots with counter increments; hence after two
sequential casts with the same token, each selecting a different single
option, exactly one live ballot exists for that token (and it is for the
second option). -/
theorem claim_C2_revote_replaces {p s1 s2 : PollState} {t mt1 mt2 : String}
    {a b : Nat} {n1 n2 : Option String}
    (h1 : crud_vote_on_poll p [a] (some t) mt1 = .ok (s1, n1))
    (h2 : crud_vote_on_poll s1 [b] (some t) mt2 = .ok (s2, n2))
    (hab : a ≠ b) :
    s2.votes.filter (fun v => v.voter_token = t)
      = [{ option_id := b, voter_token := t }] ∧
    getVotes s2.options a = max 0 (getVotes s1.options a - 1) ∧
    getVotes s2.options b = getVotes s1.options b + 1 := by
  obtain ⟨hpres2, hq2, -⟩ := crud_vote_on_poll_ok h2
  obtain ⟨-, hq1, -⟩ := crud_vote_on_poll_ok h1
  have hs1votes : s1.votes.filter (fun v => v.voter_token = t)
      = [{ option_id := a, voter_token := t }] := by
    rw [hq1]
    show ((survivingVotesFor p (some t)) ++
      [({ option_id := a, voter_token := t } : IndividualVote)]).filter
        (fun v => v.voter_token = t) = _
    rw [List.filter_append]
    rw [show survivingVotesFor p (some t)
        = p.votes.filter (fun v => v.voter_token ≠ t) from rfl]
    rw [filter_token_of_filter_ne]
    simp
  have hprev2 : prevVotesFor s1 (some t) = [{ option_id := a, voter_token := t }] := by
    show s1.votes.filter (fun v => v.voter_token = t) = _
    exact hs1votes
  refine ⟨?_, ?_, ?_⟩
  · rw [hq2]
    show ((survivingVotesFor s1 (some t)) ++
      [({ option_id := b, voter_token := t } : IndividualVote)]).filter
        (fun v => v.voter_token = t) = _
    rw [List.filter_append]
    rw [show survivingVotesFor s1 (some t)
        = s1.votes.filter (fun v => v.voter_token ≠ t) from rfl]
    rw [filter_token_of_filter_ne]
    simp
  · rw [hq2]
    show getVotes (applyIncrements (applyDecrements s1.options (prevVotesFor s1 (some t))) [b]) a = _
    rw [hprev2]
    rw [show applyDecrements s1.options [({ option_id := a, voter_token := t } : IndividualVote)]
        = decrementFor s1.options a from rfl]
    rw [show applyIncrements (decrementFor s1.options a) [b]
        = incrementFor (decrementFor s1.options a) b from rfl]
    rw [getVotes_incrementFor_ne _ _ _ (fun hcon => hab hcon.symm)]
    rw [getVotes_decrementFor]
    rw [if_pos rfl]
  · rw [hq2]
    show getVotes (applyIncrements (applyDecrements s1.options (prevVotesFor s1 (some t))) [b]) b = _
    rw [hprev2]
    rw [show applyDecrements s1.options [({ option_id := a, voter_token := t } : IndividualVote)]
        = decrementFor s1.options a from rfl]
    rw [show applyIncrements (decrementFor s1.options a) [b]
        = incrementFor (decrementFor s1.options a) b from rfl]
    have hpres : ((decrementFor s1.options a).find? (fun o => o.id = b)).isSome := by
      rw [find?_id_isSome_iff, ids_decrementFor, ← find?_id_isSome_iff]
      exact hpres2 b (List.mem_singleton.mpr rfl)
    rw [getVotes_incrementFor_self _ _ hpres]
    rw [getVotes_decrementFor]
    rw [if_neg hab]

/-- Concrete two-cast run for claim C2: Red then Blue with the same token. -/
def exampleS1 : PollState :=
  { examplePoll with
    options := [{ id := 1, text := "Red", votes := 1 }, { id := 2, text := "Blue", votes := 0 }]
    votes := [{ option_id := 1, voter_token := "tokA" }] }

def exampleS2 : PollState :=
  { examplePoll with
    options := [{ id := 1, text := "Red", votes := 0 }, { id := 2, text := "Blue", votes := 1 }]
    votes := [{ option_id := 2, voter_token := "tokA" }] }

theorem claim_C2_witness :
    exampleS2.votes.filter (fun v => v.voter_token = "tokA")
      = [{ option_id := 2, voter_token := "tokA" }] ∧
    getVotes exampleS2.options 1 = max 0 (getVotes exampleS1.options 1 - 1) ∧
    getVotes exampleS2.options 2 = getVotes exampleS1.options 2 + 1 :=
  @claim_C2_revote_replaces examplePoll exampleS1 exampleS2 "tokA" "m1" "m2" 1 2
    none none rfl rfl (by decide)

/-! ## Claim C4 -/

/-- Claim C4 counterexample: on a poll whose two options both have zero votes,
an update removing both option ids succeeds and leaves the poll with zero
options — the code enforces no lower bound on the option count, contradicting
the claim that every poll always keeps at least 2 options. -/
theorem claim_C4_counterexample :
    resultOptionCount (update_poll examplePoll
      { question := none, is_public := none, allow_multiple_selections := none,
        options_to_add := [], options_to_update := [], option_ids_to_remove := [1, 2],
        modification_code := "SECRET01" } 1) = some 0 := by decide

/-- Claim C4 (amended): after any sequence of completed operations, the poll's
option texts remain pairwise distinct case-insensitively (creation requires
2-20 such texts), but no minimum option count is maintained by updates. -/
theorem claim_C4_texts_distinct (ops : List PollOp) :
    optionTextsDistinctS (runOps ops) := by
  have hInv := InvS_runOps ops
  cases hrun : runOps ops with
  | none => trivial
  | some p =>
    rw [hrun] at hInv
    exact hInv.2.2.2

/-! ## Claim C3 -/

/-- An update request changing the question and adding one option. -/
def exampleUpdateQA : PollUpdate :=
  { question := some "New question?", is_public := none, allow_multiple_selections := none,
    options_to_add := ["Green"], options_to_update := [], option_ids_to_remove := [],
    modification_code := "SECRET01" }

/-- Claim C3 counterexample: the claim puts scalar field changes last (step 5,
after removals, renames and additions), but on a request combining a question
change with an option addition `update_poll` records the `"question"` history
entry first: the scalar block (crud/poll.py lines 185-207) runs before the
option blocks (lines 213-276). -/
theorem claim_C3_counterexample :
    resultHistoryTags (update_poll examplePoll exampleUpdateQA 1)
      = some ["question", "option_added"] := rfl

/-- Claim C3 (amended): `update_poll` applies its steps in the order (1)
existence and capability check, (2) scalar field changes (question,
visibility, multi-select), (3) option removals, (4) option renames against
the post-removal set, (5) option additions against the post-removal/rename
set; the history entries of a successful update are appended in exactly that
group order. -/
theorem claim_C3_amended {p q : PollState} {u : PollUpdate} {tick : Nat}
    (h : update_poll p u tick = .ok q) :
    ∃ hs l1 l2 l3,
      q.edit_history = p.edit_history ++ (hs ++ l1 ++ l2 ++ l3) ∧
      (∀ e ∈ hs, e.field_changed = "question" ∨ e.field_changed = "is_public" ∨
        e.field_changed = "allow_multiple_selections") ∧
      (∀ e ∈ l1, e.field_changed = "option_removed") ∧
      (∀ e ∈ l2, e.field_changed = "option_text_updated") ∧
      (∀ e ∈ l3, e.field_changed = "option_added") :=
  update_poll_ok_structure h

/-- The poll produced by `exampleUpdateQA` on `examplePoll`. -/
def examplePollQA : PollState :=
  { examplePoll with
    question := "New question?"
    options := [{ id := 1, text := "Red", votes := 0 }, { id := 2, text := "Blue", votes := 0 },
      { id := 3, text := "Green", votes := 0 }]
    edit_history :=
      [{ field_changed := "question", option_id_changed := none,
         old_value := some "Best color?", new_value := some "New question?",
         change_description := none },
       { field_changed := "option_added", option_id_changed := some 3,
         old_value := none, new_value := some "Green",
         change_description := some "Option Green added." }]
    updated_at_tick := 1
    next_option_id := 4 }

theorem claim_C3_amended_witness :
    ∃ hs l1 l2 l3,
      examplePollQA.edit_history = examplePoll.edit_history ++ (hs ++ l1 ++ l2 ++ l3) ∧
      (∀ e ∈ hs, e.field_changed = "question" ∨ e.field_changed = "is_public" ∨
        e.field_changed = "allow_multiple_selections") ∧
      (∀ e ∈ l1, e.field_changed = "option_removed") ∧
      (∀ e ∈ l2, e.field_changed = "option_text_updated") ∧
      (∀ e ∈ l3, e.field_changed = "option_added") :=
  @claim_C3_amended examplePoll examplePollQA exampleUpdateQA 1 rfl

/-! ## Claim C5 -/

/-- Claim C5: if `update_poll` fails with any validation error (NotFound,
InvalidCapability, InvalidRequest, UpdateNotAllowed, DuplicateOptionText),
the stored poll state is completely unchanged — no option removed, renamed or
added, no history row written, and the update timestamp not advanced — even
when earlier steps of the same request had already passed validation: every
raise happens before the commit, and the session is rolled back. -/
theorem claim_C5_error_no_side_effects (s : Option PollState) (u : PollUpdate)
    (tick : Nat) (e : UpdateError)
    (h : (update_poll_txn s u tick).2 = some e) :
    (update_poll_txn s u tick).1 = s := by
  cases s with
  | none => rfl
  | some p =>
    simp only [update_poll_txn] at h ⊢
    cases hup : update_poll p u tick with
    | ok q =>
      rw [hup] at h
      exact Option.noConfusion h
    | error e2 => rfl

/-- A request whose scalar step passes (new question) but whose removal step
then fails: option id 999 does not exist. -/
def exampleFailingUpdate : PollUpdate :=
  { question := some "New question?", is_public := none, allow_multiple_selections := none,
    options_to_add := [], options_to_update := [], option_ids_to_remove := [999],
    modification_code := "SECRET01" }

theorem claim_C5_witness :
    (update_poll_txn (some examplePoll) exampleFailingUpdate 1).2
      = some (.invalidRequest 999) ∧
    (update_poll_txn (some examplePoll) exampleFailingUpdate 1).1 = some examplePoll :=
  ⟨rfl,
   claim_C5_error_no_side_effects (some examplePoll) exampleFailingUpdate 1
     (.invalidRequest 999) rfl⟩

/-! ## Claim C6 -/

/-- Claim C6 counterexample: `create_poll` commits the poll row first and the
option rows second; when the second commit fails, the poll remains persisted
with an empty option set and an error is reported — a state where the poll
exists without its options, contradicting the claimed atomicity. -/
theorem claim_C6_counterexample :
    ((create_poll_commits none exampleCreate "SECRET01" 0 0 true false).1.map
      (fun p => p.options)) = some [] ∧
    (create_poll_commits none exampleCreate "SECRET01" 0 0 true false).2
      = some "DB_CREATE_OPTIONS_ERROR" := ⟨rfl, rfl⟩

/-- Claim C6 (amended): `create_poll` persists the poll row in a first commit
and its option rows in a second.  If the first commit fails nothing is
persisted; if the second fails the poll remains persisted with an empty
option set (observable); only when both succeed are the poll and all its
options stored. -/
theorem claim_C6_two_commits (prev : Option PollState) (d : PollCreate)
    (code : String) (ai ni : Nat) (c1 c2 : Bool) :
    create_poll_commits prev d code ai ni c1 c2 = (prev, some "DB_CREATE_POLL_ERROR") ∨
    create_poll_commits prev d code ai ni c1 c2
      = (some { create_poll d code ai ni with options := [] },
         some "DB_CREATE_OPTIONS_ERROR") ∨
    create_poll_commits prev d code ai ni c1 c2 = (some (create_poll d code ai ni), none) := by
  unfold create_poll_commits
  by_cases h1 : c1 <;> by_cases h2 : c2 <;> simp [h1, h2]

/-! ## Claim C7 -/

/-- Claim C7: an update whose aggregate effect is zero changes — the supplied
code matches, every supplied scalar equals the current stored value, no option
is removed or added, and every requested rename targets an existing option
with its current text — returns the poll successfully and completely
unchanged: zero history rows and an untouched update timestamp. -/
theorem claim_C7_noop_update {p : PollState} {u : PollUpdate} {tick : Nat}
    (hids : (p.options.map (fun o => o.id)).Nodup)
    (hcode : u.modification_code = p.modification_code)
    (hq : ∀ q0, u.question = some q0 → q0 = p.question)
    (hpub : ∀ b, u.is_public = some b → b = p.is_public)
    (hmul : ∀ b, u.allow_multiple_selections = some b → b = p.allow_multiple_selections)
    (hrm : u.option_ids_to_remove = [])
    (hadd : u.options_to_add = [])
    (hren : ∀ r ∈ u.options_to_update, ∃ o ∈ p.options, o.id = r.id ∧ o.text = r.text) :
    update_poll p u tick = .ok p := by
  unfold update_poll
  rw [if_neg (not_not_intro hcode.symm), applyScalarUpdates_noop hq hpub hmul]
  dsimp only
  rw [hrm, hadd]
  simp only [processRemovals, processAdds, Bind.bind, Except.bind]
  rw [processRenames_noop hids hren]
  simp

/-- A no-op update request for `examplePoll`: all scalars re-supplied with the
current values, and a rename of option 1 to its current text. -/
def exampleNoopUpdate : PollUpdate :=
  { question := some "Best color?", is_public := some true,
    allow_multiple_selections := some false,
    options_to_add := [], options_to_update := [{ id := 1, text := "Red" }],
    option_ids_to_remove := [], modification_code := "SECRET01" }

theorem claim_C7_witness :
    update_poll examplePoll exampleNoopUpdate 5 = .ok examplePoll :=
  claim_C7_noop_update (by decide) rfl
    (fun q0 h => (Option.some.inj h).symm)
    (fun b h => (Option.some.inj h).symm)
    (fun b h => (Option.some.inj h).symm)
    rfl rfl
    (by
      intro r hr
      have hr2 : r = { id := 1, text := "Red" } := by
        simpa [exampleNoopUpdate] using hr
      subst hr2
      exact ⟨{ id := 1, text := "Red", votes := 0 }, by decide, rfl, rfl⟩)

/-! ## Claim C8 -/

/-- Claim C8: for a vote-cast request, when the poll's voting-security level
is `"none"` any client-supplied voter token is discarded and the ballot
engine runs as for a first-time voter — the minted token is returned and the
prior ballot rows are all preserved, with the new ballots appended (no
revision); for every other level, a supplied token is passed through to the
ballot engine unchanged. -/
theorem claim_C8_token_policy (p : PollState) (sel : List Nat) (ck : Option String)
    (mt : String) :
    (p.voting_security_level = "none" →
      vote_on_poll_endpoint p sel ck mt = crud_vote_on_poll p sel none mt ∧
      ∀ q nt, vote_on_poll_endpoint p sel ck mt = .ok (q, nt) →
        nt = some mt ∧
        q.votes = p.votes ++ sel.map (fun oid => { option_id := oid, voter_token := mt })) ∧
    (p.voting_security_level ≠ "none" →
      vote_on_poll_endpoint p sel ck mt = crud_vote_on_poll p sel ck mt) := by
  constructor
  · intro hnone
    have heq : vote_on_poll_endpoint p sel ck mt = crud_vote_on_poll p sel none mt := by
      unfold vote_on_poll_endpoint resolveVoterToken
      rw [if_pos hnone]
    refine ⟨heq, ?_⟩
    intro q nt h
    rw [heq] at h
    obtain ⟨-, hq, hnt⟩ := crud_vote_on_poll_ok h
    subst hq
    exact ⟨by simpa using hnt, rfl⟩
  · intro hne
    unfold vote_on_poll_endpoint resolveVoterToken
    rw [if_neg hne]

/-- `examplePoll` configured with voting-security level `"none"`. -/
def examplePollNone : PollState :=
  { examplePoll with voting_security_level := "none" }

theorem claim_C8_witness :
    vote_on_poll_endpoint examplePollNone [1] (some "cookieTok") "fresh1"
      = crud_vote_on_poll examplePollNone [1] none "fresh1" :=
  ((claim_C8_token_policy examplePollNone [1] (some "cookieTok") "fresh1").1 rfl).1

/-! ## Claim C9 -/

/-- A `PollUpdate` that only renames option `i` to `t`. -/
def renameOnlyUpdate (i : Nat) (t : String) (code : String) : PollUpdate :=
  { question := none, is_public := none, allow_multiple_selections := none,
    options_to_add := [], options_to_update := [{ id := i, text := t }],
    option_ids_to_remove := [], modification_code := code }

/-- Claim C9 counterexample: renaming option 1 of `examplePoll` from "Red" to
"RED" — same text up to case — succeeds and DOES write one
`option_text_updated` history row, because the source compares the old and
new text case-sensitively (`option_to_edit.text != opt_update_data.text`)
before logging; the claim says no history entry is produced when the
normalized value is unchanged. -/
theorem claim_C9_counterexample :
    resultHistoryTags (update_poll examplePoll (renameOnlyUpdate 1 "RED" "SECRET01") 1)
      = some ["option_text_updated"] := rfl

/-- Reduction of `update_poll` on a rename-only request to the single
`renameOne` step (the code check passes, the scalar block and the removal and
addition loops are no-ops). -/
theorem update_poll_rename_only (p : PollState) (i : Nat) (t : String) (tick : Nat) :
    update_poll p (renameOnlyUpdate i t p.modification_code) tick =
      (match renameOne ⟨p.options, setOfLowerTexts p.options, [], p.next_option_id⟩
          { id := i, text := t } with
      | .error e => .error e
      | .ok ctx => .ok { p with
          options := ctx.options
          next_option_id := ctx.next_option_id
          edit_history := p.edit_history ++ ctx.history
          updated_at_tick := if ctx.history.isEmpty then p.updated_at_tick else tick }) := by
  unfold update_poll
  rw [if_neg (not_not_intro (show p.modification_code
      = (renameOnlyUpdate i t p.modification_code).modification_code from rfl))]
  rw [show applyScalarUpdates p (renameOnlyUpdate i t p.modification_code) = (p, []) from rfl]
  dsimp only
  simp only [renameOnlyUpdate]
  simp only [processRemovals, processRenames, processAdds, Bind.bind, Except.bind]
  cases renameOne ⟨p.options, setOfLowerTexts p.options, [], p.next_option_id⟩
      { id := i, text := t } with
  | error e => rfl
  | ok c => rfl

/-- Claim C9 (amended): renaming an option to its byte-identical current text
is accepted and is a silent no-op (no history row); renaming to the same text
in a different case succeeds, applies the rename, and writes one
`option_text_updated` history row; renaming to a text colliding
case-insensitively with a different surviving option fails with
`DuplicateOptionText`. -/
theorem claim_C9_rename_semantics {p : PollState} {i : Nat} {o : PollOption}
    {t : String} {tick : Nat}
    (hids : (p.options.map (fun o2 => o2.id)).Nodup)
    (htxt : (p.options.map (fun o2 => pyLower o2.text)).Nodup)
    (ho : o ∈ p.options) (hoid : o.id = i) :
    (t = o.text →
      update_poll p (renameOnlyUpdate i t p.modification_code) tick = .ok p) ∧
    (t ≠ o.text → pyLower t = pyLower o.text →
      update_poll p (renameOnlyUpdate i t p.modification_code) tick = .ok { p with
        options := p.options.map (fun o2 => if o2.id = i then { o2 with text := t } else o2)
        edit_history := p.edit_history ++
          [{ field_changed := "option_text_updated", option_id_changed := some i,
             old_value := some o.text, new_value := some t, change_description := none }]
        updated_at_tick := tick }) ∧
    (∀ o2 ∈ p.options, o2.id ≠ i → pyLower o2.text = pyLower t →
      update_poll p (renameOnlyUpdate i t p.modification_code) tick
        = .error (.duplicateOptionText t)) := by
  have hfind : p.options.find? (fun o2 => o2.id = i) = some o := by
    rw [← hoid]
    exact find?_eq_of_mem_nodup hids ho
  refine ⟨?_, ?_, ?_⟩
  · intro heq
    rw [update_poll_rename_only]
    rw [renameOne_noop hids ho hoid heq.symm]
    simp
  · intro hne hlow
    rw [update_poll_rename_only]
    have hstep : renameOne ⟨p.options, setOfLowerTexts p.options, [], p.next_option_id⟩
        { id := i, text := t }
        = .ok ⟨p.options.map (fun o2 => if o2.id = i then { o2 with text := t } else o2),
            setAdd (setDiscard (setOfLowerTexts p.options) (pyLower o.text)) (pyLower t),
            [{ field_changed := "option_text_updated", option_id_changed := some i,
               old_value := some o.text, new_value := some t, change_description := none }],
            p.next_option_id⟩ := by
      unfold renameOne
      simp only [hfind]
      rw [if_pos (fun hcon => hne hcon.symm)]
      rw [if_neg (by
        rw [mem_setDiscard]
        rintro ⟨-, hcon⟩
        exact hcon hlow)]
      rfl
    rw [hstep]
    rfl
  · intro o2 ho2 h2i h2low
    have hne : o.text ≠ t := by
      intro hcon
      have ho2o : o2 = o := lower_inj_of_nodup htxt ho2 ho (by rw [h2low, hcon])
      exact h2i (ho2o ▸ hoid)
    rw [update_poll_rename_only]
    have hstep : renameOne ⟨p.options, setOfLowerTexts p.options, [], p.next_option_id⟩
        { id := i, text := t }
        = .error (.duplicateOptionText t) := by
      unfold renameOne
      simp only [hfind]
      rw [if_pos hne]
      rw [if_pos (by
        rw [mem_setDiscard]
        constructor
        · rw [mem_setOfLowerTexts]
          exact List.mem_map.mpr ⟨o2, ho2, h2low⟩
        · intro hcon
          have ho2o : o2 = o := lower_inj_of_nodup htxt ho2 ho (by rw [h2low, hcon])
          exact h2i (ho2o ▸ hoid))]
    rw [hstep]

theorem claim_C9_witness :
    ("RED" = "Red" →
      update_poll examplePoll (renameOnlyUpdate 1 "RED" examplePoll.modification_code) 3
        = .ok examplePoll) ∧
    ("RED" ≠ "Red" → pyLower "RED" = pyLower "Red" →
      update_poll examplePoll (renameOnlyUpdate 1 "RED" examplePoll.modification_code) 3
        = .ok { examplePoll with
            options := examplePoll.options.map
              (fun o2 => if o2.id = 1 then { o2 with text := "RED" } else o2)
            edit_history := examplePoll.edit_history ++
              [{ field_changed := "option_text_updated", option_id_changed := some 1,
                 old_value := some "Red", new_value := some "RED",
                 change_description := none }]
            updated_at_tick := 3 }) ∧
    (∀ o2 ∈ examplePoll.options, o2.id ≠ 1 → pyLower o2.text = pyLower "RED" →
      update_poll examplePoll (renameOnlyUpdate 1 "RED" examplePoll.modification_code) 3
        = .error (.duplicateOptionText "RED")) :=
  @claim_C9_rename_semantics examplePoll 1 { id := 1, text := "Red", votes := 0 } "RED" 3
    (by decide) (by decide) (by decide) rfl

/-! ## Claim C10 -/

theorem getD_mod_mem (l : List String) (h : l ≠ []) (i : Nat) :
    l.getD (i % l.length) "" ∈ l := by
  have hlt : i % l.length < l.length := Nat.mod_lt _ (List.length_pos.mpr h)
  rw [List.getD_eq_getElem _ _ hlt]
  exact List.getElem_mem ..

/-- Claim C10: a createPoll request whose creator display name is absent or
consists only of whitespace gets a non-empty auto-generated display name of
the form `Adjective Noun` drawn from the two fixed word lists; a non-blank
supplied name is stored as given after whitespace stripping.  `raw` is the
client-supplied value; `hsan` states that the request reaching the crud layer
carries the schemas.py-sanitized (stripped) name. -/
theorem claim_C10_creator_name (d : PollCreate) (raw : Option String)
    (code : String) (ai ni : Nat)
    (hsan : d.creator_display_name = sanitize_creator_display_name raw) :
    ((raw = none ∨ (∃ s, raw = some s ∧ pyStrip s = "")) →
      ∃ adj ∈ ADJECTIVES, ∃ noun ∈ NOUNS,
        (create_poll d code ai ni).creator_display_name = some (adj ++ " " ++ noun) ∧
        adj ++ " " ++ noun ≠ "") ∧
    (∀ s, raw = some s → pyStrip s ≠ "" →
      (create_poll d code ai ni).creator_display_name = some (pyStrip s)) := by
  constructor
  · intro hblank
    have hname : create_poll_creator_name d.creator_display_name ai ni
        = generate_random_display_name ai ni := by
      rcases hblank with rfl | ⟨s, rfl, hs⟩
      · rw [hsan]
        rfl
      · rw [hsan]
        show create_poll_creator_name (some (pyStrip s)) ai ni = _
        simp only [create_poll_creator_name]
        rw [if_pos (Or.inl hs)]
    refine ⟨ADJECTIVES.getD (ai % ADJECTIVES.length) "", getD_mod_mem _ (by decide) _,
      NOUNS.getD (ni % NOUNS.length) "", getD_mod_mem _ (by decide) _, ?_, ?_⟩
    · show some (create_poll_creator_name d.creator_display_name ai ni) = _
      rw [hname]
      rfl
    · intro hcon
      have hlen := congrArg String.length hcon
      rw [String.length_append, String.length_append] at hlen
      have hsp : (" " : String).length = 1 := rfl
      have hem : ("" : String).length = 0 := rfl
      omega
  · intro s hraw hs
    rw [hraw] at hsan
    show some (create_poll_creator_name d.creator_display_name ai ni) = _
    rw [hsan]
    show some (create_poll_creator_name (some (pyStrip s)) ai ni) = _
    simp only [create_poll_creator_name]
    rw [if_neg ?hno]
    case hno =>
      rintro (hcon | hcon)
      · exact hs hcon
      · rw [pyStrip_idem] at hcon
        exact hs hcon

/-- A creation request whose raw creator name was the whitespace-only
string, arriving at the crud layer stripped to the empty string. -/
def exampleCreateBlankName : PollCreate :=
  { exampleCreate with creator_display_name := some "" }

theorem claim_C10_witness :
    ((some "   " = (none : Option String) ∨
        (∃ s, (some "   " : Option String) = some s ∧ pyStrip s = "")) →
      ∃ adj ∈ ADJECTIVES, ∃ noun ∈ NOUNS,
        (create_poll exampleCreateBlankName "SECRET01" 4 7).creator_display_name
          = some (adj ++ " " ++ noun) ∧
        adj ++ " " ++ noun ≠ "") ∧
    (∀ s, (some "   " : Option String) = some s → pyStrip s ≠ "" →
      (create_poll exampleCreateBlankName "SECRET01" 4 7).creator_display_name
        = some (pyStrip s)) :=
  claim_C10_creator_name exampleCreateBlankName (some "   ") "SECRET01" 4 7 rfl

end QuickPoll
